import Mathlib

/-!
Verification of the todo dependency management core of the MyTodoList backend.

The definitions below are a shallow embedding of:
  - `backend/repository/todo/service.py` (`TodoRepositoryService.get_by_id`, `.update`),
  - `backend/usecase/todo_management/service.py` (`TodoManagementService.update_todo`),
  - `backend/usecase/todo_dependency_management/service.py`
    (`_check_circular_dependency`, `set_dependency`, `remove_dependency`,
     `validate_dependency`, `get_dependency_chain`).

Modelling conventions:
  - The Django-backed todo table is a `Store := List TodoDTO`; `Todo.objects.get(id=i)`
    becomes `get_by_id`, which returns the first record with the given id.
  - Raised exceptions become `Except DepError`; every operation that can write returns
    the resulting store alongside the result, and error paths return the store unchanged
    (in the source, every raise happens before the single `save()` write).
  - Python truthiness on optional integer ids (`if todo.previous_todo_id:` treats both
    `None` and `0` as absent) is modelled by `pyOptId`.
  - The unbounded recursion / while loops of the source terminate because the visited
    set grows inside a finite id universe; here they take an explicit fuel argument
    that provably dominates the number of iterations the source can perform
    (`2 * store.length + 2` for the recursive cycle check, `store.length + 1` for the
    chain walks).
-/

namespace MyTodoList

/-- Projection of a stored todo row, mirroring `repository/todo/interface/dataclasses.py`
(`TodoDTO`).  Timestamps are `Nat` milliseconds. -/
structure TodoDTO where
  todo_id : Nat
  title : String
  description : String
  deadline_timestamp_ms : Option Nat := none
  priority : String := "Medium"
  status : String := "ToDo"
  category : String := ""
  labels : List String := []
  user_id : Nat
  project_id : Option Nat := none
  previous_todo_id : Option Nat := none
  next_todo_id : Option Nat := none
  order : Nat := 0
  created_at : Nat := 0
  updated_at : Nat := 0
  completed_at_timestamp_ms : Option Nat := none
  auto_repeat : String := "None"
deriving Repr, DecidableEq

/-- The todo table: the list of stored rows. -/
abbrev Store := List TodoDTO

/-- `TodoRepositoryService.get_by_id`: `Todo.objects.get(id=todo_id)`, `None` when absent. -/
def get_by_id (s : Store) (todo_id : Nat) : Option TodoDTO :=
  List.find? (fun t => t.todo_id == todo_id) s

/-- Python truthiness for an optional integer id: `None` and `0` are both falsy. -/
def pyOptId : Option Nat → Option Nat
  | some 0 => none
  | o => o

/-- `repository/todo/interface/dataclasses.py` `TodoUpdateRequest`: a partial update;
`none` means "field not provided". -/
structure TodoUpdateRequest where
  title : Option String := none
  description : Option String := none
  deadline_timestamp_ms : Option Nat := none
  priority : Option String := none
  status : Option String := none
  category : Option String := none
  labels : Option (List String) := none
  project_id : Option Nat := none
  previous_todo_id : Option Nat := none
  next_todo_id : Option Nat := none
  order : Option Nat := none
  created_at : Option Nat := none
  updated_at : Option Nat := none
  completed_at_timestamp_ms : Option Nat := none
  auto_repeat : Option String := none
deriving Repr, DecidableEq

/-- `if field is not None: todo.field = field` for a non-optional column. -/
def updVal {α : Type} (new : Option α) (old : α) : α :=
  match new with
  | some v => v
  | none => old

/-- `if field is not None: todo.field = field` for a nullable column: providing
`some v` overwrites, providing `none` leaves the stored value untouched.
This is why an explicit "clear to NULL" cannot be expressed through `update`. -/
def updOpt {α : Type} (new : Option α) (old : Option α) : Option α :=
  match new with
  | some v => some v
  | none => old

/-- `if todo_data.updated_at:` — integer truthiness, so an update to `0` is ignored. -/
def updTruthyNat (new : Option Nat) (old : Nat) : Nat :=
  match new with
  | some v => if v = 0 then old else v
  | none => old

/-- Field-by-field body of `TodoRepositoryService.update` (lines 127-156). -/
def applyUpdate (t : TodoDTO) (u : TodoUpdateRequest) : TodoDTO :=
  { t with
    title := updVal u.title t.title
    description := updVal u.description t.description
    deadline_timestamp_ms := updOpt u.deadline_timestamp_ms t.deadline_timestamp_ms
    priority := updVal u.priority t.priority
    status := updVal u.status t.status
    category := updVal u.category t.category
    labels := updVal u.labels t.labels
    project_id := updOpt u.project_id t.project_id
    previous_todo_id := updOpt u.previous_todo_id t.previous_todo_id
    next_todo_id := updOpt u.next_todo_id t.next_todo_id
    order := updVal u.order t.order
    updated_at := updTruthyNat u.updated_at t.updated_at
    completed_at_timestamp_ms := updOpt u.completed_at_timestamp_ms t.completed_at_timestamp_ms
    auto_repeat := updVal u.auto_repeat t.auto_repeat }

/-- The typed failures of the dependency subsystem
(`usecase/todo_dependency_management/interface/exceptions.py`). -/
inductive DepError where
  | todoNotFoundById : Nat → DepError
  | todoAccessDenied : Nat → Nat → DepError
  | circularDependency : Nat → Nat → DepError
  | invalidDependency : DepError
deriving Repr, DecidableEq

deriving instance DecidableEq for Except

/-- The table after `todo.save()`: the row with the updated id is replaced. -/
def storeAfterUpdate (s : Store) (todo_id : Nat) (u : TodoUpdateRequest) : Store :=
  s.map (fun x => if x.todo_id = todo_id then applyUpdate x u else x)

/-- `TodoRepositoryService.update`: fetch, apply provided fields, save.
`Todo.DoesNotExist` raises before any write. -/
def repoUpdate (s : Store) (todo_id : Nat) (u : TodoUpdateRequest) :
    Except DepError TodoDTO × Store :=
  match get_by_id s todo_id with
  | none => (.error (.todoNotFoundById todo_id), s)
  | some t => (.ok (applyUpdate t u), storeAfterUpdate s todo_id u)

/-- `usecase/todo_management/interface` `UpdateTodoRequest`. -/
structure UpdateTodoRequest where
  todo_id : Nat
  user_id : Nat
  title : Option String := none
  description : Option String := none
  deadline_timestamp_ms : Option Nat := none
  priority : Option String := none
  status : Option String := none
  category : Option String := none
  labels : Option (List String) := none
  project_id : Option Nat := none
  previous_todo_id : Option Nat := none
  next_todo_id : Option Nat := none
  order : Option Nat := none
  auto_repeat : Option String := none
  completed_at_timestamp_ms : Option Nat := none
deriving Repr, DecidableEq

/-- The `TodoUpdateRequest` that `update_todo` hands to the repository (lines 223-239):
the caller's fields, `created_at` not provided, `updated_at` set to the current clock. -/
def usecaseUpdateFields (now : Nat) (req : UpdateTodoRequest) : TodoUpdateRequest :=
  { title := req.title
    description := req.description
    deadline_timestamp_ms := req.deadline_timestamp_ms
    priority := req.priority
    status := req.status
    category := req.category
    labels := req.labels
    project_id := req.project_id
    previous_todo_id := req.previous_todo_id
    next_todo_id := req.next_todo_id
    order := req.order
    created_at := none
    updated_at := some now
    completed_at_timestamp_ms := req.completed_at_timestamp_ms
    auto_repeat := req.auto_repeat }

/-- `TodoManagementService.update_todo` (lines 204-258): fetch, ownership check
(`_repo_dto_to_usecase_dto` copies `user_id` through unchanged), then a repository
update through `usecaseUpdateFields`.  The clock
(`date_time_service.now().timestamp_ms`) is passed in as `now`.  The usecase response
record is not consumed by the dependency service, so the `Except` only records success
or the typed error. -/
def update_todo (s : Store) (now : Nat) (req : UpdateTodoRequest) :
    Except DepError Unit × Store :=
  match get_by_id s req.todo_id with
  | none => (.error (.todoNotFoundById req.todo_id), s)
  | some existing =>
      if existing.user_id ≠ req.user_id then
        (.error (.todoAccessDenied req.todo_id req.user_id), s)
      else
        match repoUpdate s req.todo_id (usecaseUpdateFields now req) with
        | (.error e, s1) => (.error e, s1)
        | (.ok _, s1) => (.ok (), s1)

/-! ### The cycle checker -/

/-- Recursion/iteration budgets.  Every level of `_check_circular_dependency` adds one
fresh id to the visited set, and every id it can ever visit is either the original
candidate or a link target of a stored row, so `2 * s.length + 2` strictly dominates
the recursion depth; similarly the chain walks visit pairwise distinct ids of which
all but the last are stored, so `s.length + 1` dominates their iteration count. -/
def checkFuel (s : Store) : Nat := 2 * s.length + 2

def walkFuel (s : Store) : Nat := s.length + 1

/-- `_check_circular_dependency` (service.py lines 18-70).  The Python function
mutates one shared `visited` set across the two recursive branches, so the embedding
threads the visited list through and returns it.  Note line 40: re-encountering an
already visited id returns `True` for the whole call. -/
def checkCircAux (s : Store) (todo_id : Nat) :
    Nat → Nat → List Nat → Bool × List Nat
  | 0, _, visited => (false, visited)
  | fuel + 1, dependency_todo_id, visited =>
      if dependency_todo_id ∈ visited then (true, visited)
      else if todo_id = dependency_todo_id then (true, visited)
      else
        let visited1 := dependency_todo_id :: visited
        match get_by_id s dependency_todo_id with
        | none => (false, visited1)
        | some dep_todo =>
            let prevRes : Bool × List Nat :=
              match pyOptId dep_todo.previous_todo_id with
              | none => (false, visited1)
              | some p =>
                  if p = todo_id then (true, visited1)
                  else checkCircAux s todo_id fuel p visited1
            if prevRes.fst then (true, prevRes.snd)
            else
              match pyOptId dep_todo.next_todo_id with
              | none => (false, prevRes.snd)
              | some nx =>
                  if nx = todo_id then (true, prevRes.snd)
                  else checkCircAux s todo_id fuel nx prevRes.snd

/-- Top-level entry of `_check_circular_dependency` (fresh empty visited set). -/
def wouldCreateCycle (s : Store) (todo_id dependency_todo_id : Nat) : Bool :=
  (checkCircAux s todo_id (checkFuel s) dependency_todo_id []).fst

/-! ### The dependency service -/

structure SetDependencyRequest where
  todo_id : Nat
  dependency_type : String
  dependency_todo_id : Nat
  user_id : Nat
deriving Repr, DecidableEq

structure SetDependencyResponse where
  todo_id : Nat
  dependency_type : String
  dependency_todo_id : Nat
  success : Bool
deriving Repr, DecidableEq

structure RemoveDependencyRequest where
  todo_id : Nat
  dependency_type : String
  user_id : Nat
deriving Repr, DecidableEq

structure RemoveDependencyResponse where
  todo_id : Nat
  dependency_type : String
  success : Bool
deriving Repr, DecidableEq

structure ValidateDependencyRequest where
  todo_id : Nat
  user_id : Nat
deriving Repr, DecidableEq

structure ValidateDependencyResponse where
  todo_id : Nat
  is_valid : Bool
  has_circular_dependency : Bool
  chain_length : Nat
  message : String
deriving Repr, DecidableEq

structure DependencyNode where
  todo_id : Nat
  title : String
  status : String
  previous_todo_id : Option Nat
  next_todo_id : Option Nat
deriving Repr, DecidableEq

structure GetDependencyChainRequest where
  todo_id : Nat
  user_id : Nat
  direction : String := "both"
deriving Repr, DecidableEq

structure GetDependencyChainResponse where
  todo_id : Nat
  chain : List DependencyNode
  total_todos : Nat
deriving Repr, DecidableEq

/-- The partial update issued by `set_dependency` (lines 119-131): exactly one link
field is provided, named by the dependency type. -/
def setDepUpdateRequest (req : SetDependencyRequest) : UpdateTodoRequest :=
  if req.dependency_type = "previous" then
    { todo_id := req.todo_id, user_id := req.user_id,
      previous_todo_id := some req.dependency_todo_id }
  else
    { todo_id := req.todo_id, user_id := req.user_id,
      next_todo_id := some req.dependency_todo_id }

/-- The partial update issued by `remove_dependency` (lines 165-177): the link field is
passed as `None`, which pydantic cannot distinguish from "not provided". -/
def removeDepUpdateRequest (req : RemoveDependencyRequest) : UpdateTodoRequest :=
  if req.dependency_type = "previous" then
    { todo_id := req.todo_id, user_id := req.user_id, previous_todo_id := none }
  else
    { todo_id := req.todo_id, user_id := req.user_id, next_todo_id := none }

/-- `TodoDependencyManagementService.set_dependency` (lines 86-144). -/
def set_dependency (s : Store) (now : Nat) (req : SetDependencyRequest) :
    Except DepError SetDependencyResponse × Store :=
  match get_by_id s req.todo_id with
  | none => (.error (.todoNotFoundById req.todo_id), s)
  | some todo_dto =>
      if todo_dto.user_id ≠ req.user_id then
        (.error (.todoAccessDenied req.todo_id req.user_id), s)
      else
        match get_by_id s req.dependency_todo_id with
        | none => (.error (.todoNotFoundById req.dependency_todo_id), s)
        | some dependency_todo_dto =>
            if dependency_todo_dto.user_id ≠ req.user_id then
              (.error (.todoAccessDenied req.dependency_todo_id req.user_id), s)
            else if ¬ (req.dependency_type = "previous" ∨ req.dependency_type = "next") then
              (.error .invalidDependency, s)
            else if wouldCreateCycle s req.todo_id req.dependency_todo_id then
              (.error (.circularDependency req.todo_id req.dependency_todo_id), s)
            else
              match update_todo s now (setDepUpdateRequest req) with
              | (.error e, s1) => (.error e, s1)
              | (.ok _, s1) =>
                  (.ok { todo_id := req.todo_id
                         dependency_type := req.dependency_type
                         dependency_todo_id := req.dependency_todo_id
                         success := true }, s1)

/-- `TodoDependencyManagementService.remove_dependency` (lines 146-189).
The source passes `previous_todo_id=None` (resp. `next_todo_id=None`) to the update,
which in a pydantic model is indistinguishable from leaving the field unset. -/
def remove_dependency (s : Store) (now : Nat) (req : RemoveDependencyRequest) :
    Except DepError RemoveDependencyResponse × Store :=
  match get_by_id s req.todo_id with
  | none => (.error (.todoNotFoundById req.todo_id), s)
  | some todo_dto =>
      if todo_dto.user_id ≠ req.user_id then
        (.error (.todoAccessDenied req.todo_id req.user_id), s)
      else if ¬ (req.dependency_type = "previous" ∨ req.dependency_type = "next") then
        (.error .invalidDependency, s)
      else
        match update_todo s now (removeDepUpdateRequest req) with
        | (.error e, s1) => (.error e, s1)
        | (.ok _, s1) =>
            (.ok { todo_id := req.todo_id
                   dependency_type := req.dependency_type
                   success := true }, s1)

/-- One iteration chain of `validate_dependency`'s previous-chain while loop
(lines 210-221): `while current_todo_id and current_todo_id not in visited`,
add to visited, fetch, follow `previous_todo_id`, flag a cycle when the link
re-enters the visited set. -/
def prevWalkAux (s : Store) : Nat → Nat → List Nat → Bool × List Nat
  | 0, _, visited => (false, visited)
  | fuel + 1, current_todo_id, visited =>
      if current_todo_id = 0 ∨ current_todo_id ∈ visited then (false, visited)
      else
        let visited1 := current_todo_id :: visited
        match get_by_id s current_todo_id with
        | none => (false, visited1)
        | some current_todo =>
            match pyOptId current_todo.previous_todo_id with
            | none => (false, visited1)
            | some p =>
                if p ∈ visited1 then (true, visited1)
                else prevWalkAux s fuel p visited1

/-- The next-chain while loop of `validate_dependency` (lines 226-237). -/
def nextWalkAux (s : Store) : Nat → Nat → List Nat → Bool × List Nat
  | 0, _, visited => (false, visited)
  | fuel + 1, current_todo_id, visited =>
      if current_todo_id = 0 ∨ current_todo_id ∈ visited then (false, visited)
      else
        let visited1 := current_todo_id :: visited
        match get_by_id s current_todo_id with
        | none => (false, visited1)
        | some current_todo =>
            match pyOptId current_todo.next_todo_id with
            | none => (false, visited1)
            | some nx =>
                if nx ∈ visited1 then (true, visited1)
                else nextWalkAux s fuel nx visited1

/-- `TodoDependencyManagementService.validate_dependency` (lines 191-254).
`visited.clear()` between the two loops means the final `len(visited)` only counts
the next-chain walk; a cycle flag from either loop persists. -/
def validate_dependency (s : Store) (req : ValidateDependencyRequest) :
    Except DepError ValidateDependencyResponse :=
  match get_by_id s req.todo_id with
  | none => .error (.todoNotFoundById req.todo_id)
  | some todo_dto =>
      if todo_dto.user_id ≠ req.user_id then
        .error (.todoAccessDenied req.todo_id req.user_id)
      else
        let prevRes := prevWalkAux s (walkFuel s) req.todo_id []
        let nextRes := nextWalkAux s (walkFuel s) req.todo_id []
        let has_circular := prevRes.fst || nextRes.fst
        let is_valid := !has_circular
        let chain_length := if has_circular then 0 else nextRes.snd.length
        .ok { todo_id := req.todo_id
              is_valid := is_valid
              has_circular_dependency := has_circular
              chain_length := chain_length
              message := if is_valid then "Dependency chain is valid"
                         else "Circular dependency detected" }

/-- The `DependencyNode` built from a fetched record in `get_dependency_chain`. -/
def mkNode (t : TodoDTO) : DependencyNode :=
  { todo_id := t.todo_id
    title := t.title
    status := t.status
    previous_todo_id := t.previous_todo_id
    next_todo_id := t.next_todo_id }

/-- The previous-direction loop of `get_dependency_chain` (lines 284-298):
each newly fetched node is inserted at the front of the chain. -/
def chainPrevAux (s : Store) :
    Nat → Option Nat → List Nat → List DependencyNode → List Nat × List DependencyNode
  | 0, _, visited, chain => (visited, chain)
  | fuel + 1, cur, visited, chain =>
      match cur with
      | none => (visited, chain)
      | some current_todo_id =>
          if current_todo_id = 0 ∨ current_todo_id ∈ visited then (visited, chain)
          else
            let visited1 := current_todo_id :: visited
            match get_by_id s current_todo_id with
            | none => (visited1, chain)
            | some current_todo =>
                chainPrevAux s fuel current_todo.previous_todo_id visited1
                  (mkNode current_todo :: chain)

/-- The next-direction loop of `get_dependency_chain` (lines 301-315):
each newly fetched node is appended at the back of the chain. -/
def chainNextAux (s : Store) :
    Nat → Option Nat → List Nat → List DependencyNode → List Nat × List DependencyNode
  | 0, _, visited, chain => (visited, chain)
  | fuel + 1, cur, visited, chain =>
      match cur with
      | none => (visited, chain)
      | some current_todo_id =>
          if current_todo_id = 0 ∨ current_todo_id ∈ visited then (visited, chain)
          else
            let visited1 := current_todo_id :: visited
            match get_by_id s current_todo_id with
            | none => (visited1, chain)
            | some current_todo =>
                chainNextAux s fuel current_todo.next_todo_id visited1
                  (chain ++ [mkNode current_todo])

/-- `TodoDependencyManagementService.get_dependency_chain` (lines 256-324).
One visited set is shared by both direction loops. -/
def get_dependency_chain (s : Store) (req : GetDependencyChainRequest) :
    Except DepError GetDependencyChainResponse :=
  match get_by_id s req.todo_id with
  | none => .error (.todoNotFoundById req.todo_id)
  | some todo_dto =>
      if todo_dto.user_id ≠ req.user_id then
        .error (.todoAccessDenied req.todo_id req.user_id)
      else
        let chain0 : List DependencyNode := [mkNode todo_dto]
        let visited0 : List Nat := [todo_dto.todo_id]
        let afterPrev :=
          if req.direction = "previous" ∨ req.direction = "both" then
            chainPrevAux s (walkFuel s) todo_dto.previous_todo_id visited0 chain0
          else (visited0, chain0)
        let afterNext :=
          if req.direction = "next" ∨ req.direction = "both" then
            chainNextAux s (walkFuel s) todo_dto.next_todo_id afterPrev.fst afterPrev.snd
          else afterPrev
        .ok { todo_id := req.todo_id
              chain := afterNext.snd
              total_todos := afterNext.snd.length }

/-! ### The link graph

Edges of the ordering graph: a stored row points at the (truthy) targets of its
`previous_todo_id` and `next_todo_id` columns.  This is exactly the edge set the
cycle checker walks. -/

/-- All truthy link targets stored anywhere in the table. -/
def linkTargets (s : Store) : List Nat :=
  s.flatMap (fun t => (pyOptId t.previous_todo_id).toList ++ (pyOptId t.next_todo_id).toList)

/-- `EdgeR s a b`: the row found under id `a` links to `b` (as previous or next). -/
def EdgeR (s : Store) (a b : Nat) : Prop :=
  ∃ t, get_by_id s a = some t ∧
    (pyOptId t.previous_todo_id = some b ∨ pyOptId t.next_todo_id = some b)

/-- `b` is reachable from `a` by following previous/next links. -/
def Reaches (s : Store) (a b : Nat) : Prop :=
  Relation.ReflTransGen (EdgeR s) a b

/-- The stored graph has no (non-empty) link cycle. -/
def NoCycle (s : Store) : Prop :=
  ∀ n, ¬ Relation.TransGen (EdgeR s) n n

lemma get_by_id_mem {s : Store} {i : Nat} {t : TodoDTO} (h : get_by_id s i = some t) :
    t ∈ s :=
  List.mem_of_find?_eq_some h

lemma get_by_id_id {s : Store} {i : Nat} {t : TodoDTO} (h : get_by_id s i = some t) :
    t.todo_id = i := by
  have := List.find?_some h
  simpa using this

lemma mem_linkTargets_of_prev {s : Store} {t : TodoDTO} {b : Nat}
    (ht : t ∈ s) (hp : pyOptId t.previous_todo_id = some b) : b ∈ linkTargets s := by
  unfold linkTargets
  refine List.mem_flatMap.mpr ⟨t, ht, ?_⟩
  simp [hp]

lemma mem_linkTargets_of_next {s : Store} {t : TodoDTO} {b : Nat}
    (ht : t ∈ s) (hn : pyOptId t.next_todo_id = some b) : b ∈ linkTargets s := by
  unfold linkTargets
  refine List.mem_flatMap.mpr ⟨t, ht, ?_⟩
  simp [hn]

lemma edge_target_mem_linkTargets {s : Store} {a b : Nat} (h : EdgeR s a b) :
    b ∈ linkTargets s := by
  obtain ⟨t, hget, hlink⟩ := h
  rcases hlink with hp | hn
  · exact mem_linkTargets_of_prev (get_by_id_mem hget) hp
  · exact mem_linkTargets_of_next (get_by_id_mem hget) hn

lemma linkTargets_length_le (s : Store) : (linkTargets s).length ≤ 2 * s.length := by
  induction s with
  | nil => simp [linkTargets]
  | cons t rest ih =>
      unfold linkTargets at ih ⊢
      rw [List.flatMap_cons]
      have h1 : ((pyOptId t.previous_todo_id).toList ++
          (pyOptId t.next_todo_id).toList).length ≤ 2 := by
        have hp : (pyOptId t.previous_todo_id).toList.length ≤ 1 := by
          cases pyOptId t.previous_todo_id <;> simp
        have hn : (pyOptId t.next_todo_id).toList.length ≤ 1 := by
          cases pyOptId t.next_todo_id <;> simp
        simpa using Nat.add_le_add hp hn
      rw [List.length_append]
      have : 2 * (t :: rest).length = 2 + 2 * rest.length := by
        simp [List.length_cons]; ring
      omega

/-! ### Soundness of the cycle checker

If `_check_circular_dependency` returns `False`, then its walk explored every id
reachable from the candidate (a re-encounter would have returned `True`, a found
`source_id` likewise), so `source_id` is not reachable from the candidate. -/

/-- Invariant of the threaded visited list: the function only ever prepends fresh
ids drawn from the universe `U`. -/
def VisInv (U vis vis' : List Nat) : Prop :=
  (∃ w, vis' = w ++ vis) ∧ vis'.Nodup ∧ (∀ x ∈ vis', x ∈ U)

lemma VisInv.refl {U vis : List Nat} (hnd : vis.Nodup) (hsub : ∀ x ∈ vis, x ∈ U) :
    VisInv U vis vis :=
  ⟨⟨[], rfl⟩, hnd, hsub⟩

lemma VisInv.trans {U v1 v2 v3 : List Nat} (h12 : VisInv U v1 v2) (h23 : VisInv U v2 v3) :
    VisInv U v1 v3 := by
  obtain ⟨⟨w1, hw1⟩, _, _⟩ := h12
  obtain ⟨⟨w2, hw2⟩, hnd, hsub⟩ := h23
  exact ⟨⟨w2 ++ w1, by rw [hw2, hw1, List.append_assoc]⟩, hnd, hsub⟩

lemma VisInv.length_le {U v1 v2 : List Nat} (h : VisInv U v1 v2) :
    v1.length ≤ v2.length := by
  obtain ⟨⟨w, hw⟩, _, _⟩ := h
  simp [hw]

lemma VisInv.cons {U vis : List Nat} {dep : Nat} (hnd : vis.Nodup)
    (hsub : ∀ x ∈ vis, x ∈ U) (hdep : dep ∈ U) (hfresh : dep ∉ vis) :
    VisInv U vis (dep :: vis) := by
  refine ⟨⟨[dep], rfl⟩, by simp [hnd, hfresh], ?_⟩
  intro x hx
  rcases List.mem_cons.mp hx with h | h
  · exact h ▸ hdep
  · exact hsub x h

lemma checkCircAux_snd_inv (s : Store) (tid : Nat) (U : List Nat)
    (hT : ∀ x ∈ linkTargets s, x ∈ U) :
    ∀ fuel dep vis, dep ∈ U → (∀ x ∈ vis, x ∈ U) → vis.Nodup →
    VisInv U vis (checkCircAux s tid fuel dep vis).snd := by
  intro fuel
  induction fuel with
  | zero =>
      intro dep vis _ hsub hnd
      exact VisInv.refl hnd hsub
  | succ fuel ih =>
      intro dep vis hdep hsub hnd
      by_cases h1 : dep ∈ vis
      · simpa [checkCircAux, h1] using VisInv.refl hnd hsub
      · by_cases h2 : tid = dep
        · simpa [checkCircAux, h1, h2] using VisInv.refl hnd hsub
        · have hcons : VisInv U vis (dep :: vis) := VisInv.cons hnd hsub hdep h1
          have hnd1 : (dep :: vis).Nodup := hcons.2.1
          have hsub1 : ∀ x ∈ dep :: vis, x ∈ U := hcons.2.2
          cases hg : get_by_id s dep with
          | none => simpa [checkCircAux, h1, h2, hg] using hcons
          | some t =>
              have htmem : t ∈ s := get_by_id_mem hg
              cases hp : pyOptId t.previous_todo_id with
              | none =>
                  cases hq : pyOptId t.next_todo_id with
                  | none => simpa [checkCircAux, h1, h2, hg, hp, hq] using hcons
                  | some nx =>
                      by_cases hnx : nx = tid
                      · simpa [checkCircAux, h1, h2, hg, hp, hq, hnx] using hcons
                      · have hnxU : nx ∈ U := hT nx (mem_linkTargets_of_next htmem hq)
                        have h2nd := ih nx (dep :: vis) hnxU hsub1 hnd1
                        simpa [checkCircAux, h1, h2, hg, hp, hq, hnx] using
                          hcons.trans h2nd
              | some p =>
                  by_cases hptid : p = tid
                  · simpa [checkCircAux, h1, h2, hg, hp, hptid] using hcons
                  · have hpU : p ∈ U := hT p (mem_linkTargets_of_prev htmem hp)
                    have hfirst := ih p (dep :: vis) hpU hsub1 hnd1
                    have hinv2 : VisInv U vis (checkCircAux s tid fuel p (dep :: vis)).snd :=
                      hcons.trans hfirst
                    by_cases hb : (checkCircAux s tid fuel p (dep :: vis)).fst
                    · simpa [checkCircAux, h1, h2, hg, hp, hptid, hb] using hinv2
                    · cases hq : pyOptId t.next_todo_id with
                      | none => simpa [checkCircAux, h1, h2, hg, hp, hptid, hb, hq] using hinv2
                      | some nx =>
                          by_cases hnx : nx = tid
                          · simpa [checkCircAux, h1, h2, hg, hp, hptid, hb, hq, hnx] using hinv2
                          · have hnxU : nx ∈ U := hT nx (mem_linkTargets_of_next htmem hq)
                            have h2nd := ih nx _ hnxU hinv2.2.2 hinv2.2.1
                            simpa [checkCircAux, h1, h2, hg, hp, hptid, hb, hq, hnx] using
                              hinv2.trans h2nd

lemma length_le_of_nodup_subset {l U : List Nat} (hnd : l.Nodup) (hsub : ∀ x ∈ l, x ∈ U) :
    l.length ≤ U.length := by
  calc l.length = l.toFinset.card := (List.toFinset_card_of_nodup hnd).symm
    _ ≤ U.toFinset.card := by
        apply Finset.card_le_card
        intro x hx
        exact List.mem_toFinset.mpr (hsub x (List.mem_toFinset.mp hx))
    _ ≤ U.length := List.toFinset_card_le U

lemma checkCircAux_false_not_reach (s : Store) (tid : Nat) (U : List Nat)
    (hT : ∀ x ∈ linkTargets s, x ∈ U) :
    ∀ fuel dep vis, dep ∈ U → (∀ x ∈ vis, x ∈ U) → vis.Nodup →
    U.length + 1 ≤ fuel + vis.length →
    (checkCircAux s tid fuel dep vis).fst = false →
    ¬ Relation.ReflTransGen (EdgeR s) dep tid := by
  intro fuel
  induction fuel with
  | zero =>
      intro dep vis _ hsub hnd hlen _ _
      have := length_le_of_nodup_subset hnd hsub
      omega
  | succ fuel ih =>
      intro dep vis hdep hsub hnd hlen hfst hreach
      have h1 : dep ∉ vis := by
        intro h
        simp [checkCircAux, h] at hfst
      have h2 : tid ≠ dep := by
        intro h
        simp [checkCircAux, h1, h] at hfst
      rcases Relation.ReflTransGen.cases_head hreach with heq | ⟨b, hedge, htail⟩
      · exact h2 heq.symm
      · obtain ⟨t, hget, hlink⟩ := hedge
        have htmem : t ∈ s := get_by_id_mem hget
        have hcons : VisInv U vis (dep :: vis) := VisInv.cons hnd hsub hdep h1
        have hnd1 : (dep :: vis).Nodup := hcons.2.1
        have hsub1 : ∀ x ∈ dep :: vis, x ∈ U := hcons.2.2
        -- dissect the run according to the previous link of `t`
        cases hp : pyOptId t.previous_todo_id with
        | none =>
            -- no previous branch; the edge must be a next edge
            rcases hlink with hpe | hne
            · rw [hp] at hpe; exact Option.noConfusion hpe
            · cases hq : pyOptId t.next_todo_id with
              | none => rw [hq] at hne; exact Option.noConfusion hne
              | some nx =>
                  have hbnx : b = nx := by rw [hq] at hne; exact (Option.some_inj.mp hne).symm
                  subst hbnx
                  by_cases hnx : b = tid
                  · simp [checkCircAux, h1, h2, hget, hp, hq, hnx] at hfst
                  · have hrec : (checkCircAux s tid fuel b (dep :: vis)).fst = false := by
                      by_contra hcon
                      have : (checkCircAux s tid fuel b (dep :: vis)).fst = true := by
                        simpa using hcon
                      simp [checkCircAux, h1, h2, hget, hp, hq, hnx, this] at hfst
                    have hbU : b ∈ U := hT b (mem_linkTargets_of_next htmem hq)
                    exact ih b (dep :: vis) hbU hsub1 hnd1 (by simp; omega) hrec htail
        | some p =>
            have hptid : p ≠ tid := by
              intro h
              simp [checkCircAux, h1, h2, hget, hp, h] at hfst
            have hpU : p ∈ U := hT p (mem_linkTargets_of_prev htmem hp)
            have hprevfalse : (checkCircAux s tid fuel p (dep :: vis)).fst = false := by
              by_contra hcon
              have : (checkCircAux s tid fuel p (dep :: vis)).fst = true := by simpa using hcon
              simp [checkCircAux, h1, h2, hget, hp, hptid, this] at hfst
            rcases hlink with hpe | hne
            · -- the edge follows the previous link
              have hbp : b = p := by rw [hp] at hpe; exact (Option.some_inj.mp hpe).symm
              subst hbp
              exact ih b (dep :: vis) hpU hsub1 hnd1 (by simp; omega) hprevfalse htail
            · -- the edge follows the next link, explored with the threaded visited list
              cases hq : pyOptId t.next_todo_id with
              | none => rw [hq] at hne; exact Option.noConfusion hne
              | some nx =>
                  have hbnx : b = nx := by rw [hq] at hne; exact (Option.some_inj.mp hne).symm
                  subst hbnx
                  by_cases hnx : b = tid
                  · simp [checkCircAux, h1, h2, hget, hp, hptid, hprevfalse, hq, hnx] at hfst
                  · have hrec :
                        (checkCircAux s tid fuel b
                          (checkCircAux s tid fuel p (dep :: vis)).snd).fst = false := by
                      by_contra hcon
                      have : (checkCircAux s tid fuel b
                          (checkCircAux s tid fuel p (dep :: vis)).snd).fst = true := by
                        simpa using hcon
                      simp [checkCircAux, h1, h2, hget, hp, hptid, hprevfalse, hq, hnx,
                        this] at hfst
                    have hbU : b ∈ U := hT b (mem_linkTargets_of_next htmem hq)
                    have hinv1 := checkCircAux_snd_inv s tid U hT fuel p (dep :: vis)
                      hpU hsub1 hnd1
                    have hinv2 : VisInv U vis (checkCircAux s tid fuel p (dep :: vis)).snd :=
                      hcons.trans hinv1
                    have hlen2 : (dep :: vis).length ≤
                        (checkCircAux s tid fuel p (dep :: vis)).snd.length :=
                      hinv1.length_le
                    exact ih b _ hbU hinv2.2.2 hinv2.2.1
                      (by simp at hlen2 ⊢; omega) hrec htail

lemma wouldCreateCycle_false_not_reach {s : Store} {tid cand : Nat}
    (h : wouldCreateCycle s tid cand = false) : ¬ Reaches s cand tid := by
  have hT : ∀ x ∈ linkTargets s, x ∈ (cand :: linkTargets s).dedup := by
    intro x hx
    exact (List.mem_dedup).mpr (List.mem_cons_of_mem _ hx)
  have hcand : cand ∈ (cand :: linkTargets s).dedup :=
    (List.mem_dedup).mpr (List.mem_cons_self _ _)
  have hlen : ((cand :: linkTargets s).dedup).length + 1 ≤ checkFuel s + ([] : List Nat).length := by
    have h1 : ((cand :: linkTargets s).dedup).length ≤ (cand :: linkTargets s).length :=
      (List.dedup_sublist _).length_le
    have h2 := linkTargets_length_le s
    simp only [List.length_cons, List.length_nil] at h1 ⊢
    unfold checkFuel
    omega
  exact checkCircAux_false_not_reach s tid ((cand :: linkTargets s).dedup) hT
    (checkFuel s) cand [] hcand (by intro x hx; cases hx) List.nodup_nil hlen h

lemma checkFuel_succ (s : Store) : checkFuel s = (2 * s.length + 1) + 1 := rfl

lemma wouldCreateCycle_self (s : Store) (tid : Nat) : wouldCreateCycle s tid tid = true := by
  unfold wouldCreateCycle
  rw [checkFuel_succ]
  simp [checkCircAux]

/-- If no stored row links to `m`, then `m` is unreachable from anywhere else. -/
lemma not_reach_of_no_inlink (s : Store) (m : Nat)
    (h : ∀ t ∈ s, pyOptId t.previous_todo_id ≠ some m ∧ pyOptId t.next_todo_id ≠ some m) :
    ∀ a, a ≠ m → ¬ Reaches s a m := by
  intro a hne hr
  rcases Relation.ReflTransGen.cases_tail hr with heq | ⟨c, _, hedge⟩
  · exact hne heq.symm
  · obtain ⟨t, hget, hlink⟩ := hedge
    have htmem : t ∈ s := get_by_id_mem hget
    rcases hlink with hp | hn
    · exact (h t htmem).1 hp
    · exact (h t htmem).2 hn

/-! ### Claim C1 -/

/-- A link-free todo row with the given id and owner (all other columns defaults). -/
def mkTodo (i u : Nat) : TodoDTO :=
  { todo_id := i, title := "t", description := "", user_id := u }

/-- A todo row with the given id, owner and link columns. -/
def mkTodoL (i u : Nat) (p nx : Option Nat) : TodoDTO :=
  { todo_id := i, title := "t", description := "", user_id := u,
    previous_todo_id := p, next_todo_id := nx }

/-- C1 counterexample store: todo 2 links to todo 3 through BOTH columns (a diamond),
todo 3 is link-free, and no row links to 1. -/
def storeC1 : Store := [mkTodoL 2 7 (some 3) (some 3), mkTodo 3 7]

/-- C1 (counterexample): `would_create_cycle(1, 2)` returns true although todo 1 is not
reachable from todo 2 — the second encounter of todo 3 (via the `next` column, after the
`previous` branch already visited it) returns true by itself, instead of merely stopping
that branch as the claim asserts. -/
theorem C1_counterexample :
    wouldCreateCycle storeC1 1 2 = true ∧ ¬ Reaches storeC1 2 1 := by
  constructor
  · decide
  · exact not_reach_of_no_inlink storeC1 1 (by decide) 2 (by decide)

/-- C1 (amended): the checker never returns a false negative — whenever `source_id` is
reachable from `candidate_id` by following previous/next links, `would_create_cycle`
returns true.  (The original claim's converse fails: re-encountering an already-visited
node also returns true, see the counterexample.) -/
theorem C1_reachable_implies_true (s : Store) (src cand : Nat)
    (h : Reaches s cand src) : wouldCreateCycle s src cand = true := by
  by_contra hfalse
  have hf : wouldCreateCycle s src cand = false := by
    cases hb : wouldCreateCycle s src cand
    · rfl
    · exact absurd hb hfalse
  exact wouldCreateCycle_false_not_reach hf h

/-- Witness for C1: on a one-edge store (todo 1 has next = 2), 2 is reachable from 1,
and the theorem yields `would_create_cycle(2, 1) = true`. -/
theorem C1_witness : wouldCreateCycle [mkTodoL 1 7 none (some 2)] 2 1 = true :=
  C1_reachable_implies_true [mkTodoL 1 7 none (some 2)] 2 1
    (Relation.ReflTransGen.single ⟨mkTodoL 1 7 none (some 2), by decide, by decide⟩)

/-! ### Run and no-write lemmas for the mutating operations -/

lemma applyUpdate_todo_id (t : TodoDTO) (u : TodoUpdateRequest) :
    (applyUpdate t u).todo_id = t.todo_id := rfl

lemma get_by_id_storeAfterUpdate (s : Store) (tid : Nat) (u : TodoUpdateRequest) (x : Nat) :
    get_by_id (storeAfterUpdate s tid u) x =
      (get_by_id s x).map (fun t => if t.todo_id = tid then applyUpdate t u else t) := by
  unfold storeAfterUpdate get_by_id
  rw [List.find?_map]
  have hp : ((fun t : TodoDTO => t.todo_id == x) ∘
      (fun t => if t.todo_id = tid then applyUpdate t u else t)) =
      (fun t : TodoDTO => t.todo_id == x) := by
    funext t
    by_cases h : t.todo_id = tid <;> simp [h, applyUpdate_todo_id]
  rw [hp]

lemma get_by_id_storeAfterUpdate_other {s : Store} {tid : Nat} {u : TodoUpdateRequest}
    {x : Nat} (hx : x ≠ tid) :
    get_by_id (storeAfterUpdate s tid u) x = get_by_id s x := by
  rw [get_by_id_storeAfterUpdate]
  cases hg : get_by_id s x with
  | none => rfl
  | some t =>
      have ht : t.todo_id = x := get_by_id_id hg
      have : ¬ t.todo_id = tid := by rw [ht]; exact hx
      simp [this]

lemma get_by_id_storeAfterUpdate_self {s : Store} {tid : Nat} {u : TodoUpdateRequest}
    {T : TodoDTO} (hT : get_by_id s tid = some T) :
    get_by_id (storeAfterUpdate s tid u) tid = some (applyUpdate T u) := by
  rw [get_by_id_storeAfterUpdate, hT]
  have ht : T.todo_id = tid := get_by_id_id hT
  simp [ht]

lemma setDepUpdateRequest_ids (req : SetDependencyRequest) :
    (setDepUpdateRequest req).todo_id = req.todo_id ∧
    (setDepUpdateRequest req).user_id = req.user_id := by
  unfold setDepUpdateRequest
  split <;> exact ⟨rfl, rfl⟩

lemma removeDepUpdateRequest_ids (req : RemoveDependencyRequest) :
    (removeDepUpdateRequest req).todo_id = req.todo_id ∧
    (removeDepUpdateRequest req).user_id = req.user_id := by
  unfold removeDepUpdateRequest
  split <;> exact ⟨rfl, rfl⟩

lemma update_todo_run {s : Store} {n : Nat} {q : UpdateTodoRequest} {T : TodoDTO}
    (hT : get_by_id s q.todo_id = some T) (hu : T.user_id = q.user_id) :
    update_todo s n q =
      (.ok (), storeAfterUpdate s q.todo_id (usecaseUpdateFields n q)) := by
  simp [update_todo, hT, hu, repoUpdate]

lemma update_todo_error_state {s : Store} {now : Nat} {req : UpdateTodoRequest}
    {e : DepError} (h : (update_todo s now req).fst = .error e) :
    (update_todo s now req).snd = s := by
  cases hg : get_by_id s req.todo_id with
  | none => simp [update_todo, hg]
  | some t =>
      by_cases hu : t.user_id = req.user_id
      · rw [update_todo_run hg hu] at h
        exact absurd h (by simp)
      · simp [update_todo, hg, hu]

lemma set_dependency_run {s : Store} {n : Nat} {q : SetDependencyRequest}
    {T D : TodoDTO}
    (hT : get_by_id s q.todo_id = some T) (hTu : T.user_id = q.user_id)
    (hD : get_by_id s q.dependency_todo_id = some D) (hDu : D.user_id = q.user_id)
    (htyp : q.dependency_type = "previous" ∨ q.dependency_type = "next")
    (hcyc : wouldCreateCycle s q.todo_id q.dependency_todo_id = false) :
    set_dependency s n q =
      (.ok { todo_id := q.todo_id, dependency_type := q.dependency_type,
             dependency_todo_id := q.dependency_todo_id, success := true },
       storeAfterUpdate s q.todo_id
         (usecaseUpdateFields n (setDepUpdateRequest q))) := by
  have hids := setDepUpdateRequest_ids q
  have hrun := update_todo_run (q := setDepUpdateRequest q) (n := n)
    (T := T) (by rw [hids.1]; exact hT) (by rw [hids.2]; exact hTu)
  simp [set_dependency, hT, hTu, hD, hDu, htyp, hcyc, hrun, hids.1]

lemma set_dependency_error_state {s : Store} {now : Nat} {req : SetDependencyRequest}
    {e : DepError} (h : (set_dependency s now req).fst = .error e) :
    (set_dependency s now req).snd = s := by
  cases hg : get_by_id s req.todo_id with
  | none => simp [set_dependency, hg]
  | some T =>
      by_cases hTu : T.user_id = req.user_id
      · cases hD : get_by_id s req.dependency_todo_id with
        | none => simp [set_dependency, hg, hTu, hD]
        | some D =>
            by_cases hDu : D.user_id = req.user_id
            · by_cases htyp : req.dependency_type = "previous" ∨ req.dependency_type = "next"
              · cases hcyc : wouldCreateCycle s req.todo_id req.dependency_todo_id with
                | true => simp [set_dependency, hg, hTu, hD, hDu, htyp, hcyc]
                | false =>
                    rw [set_dependency_run (n := now) hg hTu hD hDu htyp hcyc] at h
                    exact absurd h (by simp)
              · simp [set_dependency, hg, hTu, hD, hDu, htyp]
            · simp [set_dependency, hg, hTu, hD, hDu]
      · simp [set_dependency, hg, hTu]

lemma set_dependency_ok_inv {s : Store} {now : Nat} {req : SetDependencyRequest}
    {r : SetDependencyResponse} (h : (set_dependency s now req).fst = .ok r) :
    ∃ T D, get_by_id s req.todo_id = some T ∧ T.user_id = req.user_id ∧
      get_by_id s req.dependency_todo_id = some D ∧ D.user_id = req.user_id ∧
      (req.dependency_type = "previous" ∨ req.dependency_type = "next") ∧
      wouldCreateCycle s req.todo_id req.dependency_todo_id = false := by
  cases hg : get_by_id s req.todo_id with
  | none => simp [set_dependency, hg] at h
  | some T =>
      by_cases hTu : T.user_id = req.user_id
      · cases hD : get_by_id s req.dependency_todo_id with
        | none => simp [set_dependency, hg, hTu, hD] at h
        | some D =>
            by_cases hDu : D.user_id = req.user_id
            · by_cases htyp : req.dependency_type = "previous" ∨ req.dependency_type = "next"
              · cases hcyc : wouldCreateCycle s req.todo_id req.dependency_todo_id with
                | true => simp [set_dependency, hg, hTu, hD, hDu, htyp, hcyc] at h
                | false => exact ⟨T, D, rfl, hTu, rfl, hDu, htyp, rfl⟩
              · simp [set_dependency, hg, hTu, hD, hDu, htyp] at h
            · simp [set_dependency, hg, hTu, hD, hDu] at h
      · simp [set_dependency, hg, hTu] at h

lemma remove_dependency_error_state {s : Store} {now : Nat} {req : RemoveDependencyRequest}
    {e : DepError} (h : (remove_dependency s now req).fst = .error e) :
    (remove_dependency s now req).snd = s := by
  cases hg : get_by_id s req.todo_id with
  | none => simp [remove_dependency, hg]
  | some T =>
      by_cases hTu : T.user_id = req.user_id
      · by_cases htyp : req.dependency_type = "previous" ∨ req.dependency_type = "next"
        · have hids := removeDepUpdateRequest_ids req
          have hrun := update_todo_run (q := removeDepUpdateRequest req) (n := now)
            (T := T) (by rw [hids.1]; exact hg) (by rw [hids.2]; exact hTu)
          have hres : remove_dependency s now req =
              (.ok { todo_id := req.todo_id, dependency_type := req.dependency_type,
                     success := true },
               storeAfterUpdate s (removeDepUpdateRequest req).todo_id
                 (usecaseUpdateFields now (removeDepUpdateRequest req))) := by
            simp [remove_dependency, hg, hTu, htyp, hrun]
          rw [hres] at h
          simp at h
        · simp [remove_dependency, hg, hTu, htyp]
      · simp [remove_dependency, hg, hTu]

/-! ### Claim C2 -/

/-- C2 failing input: todo 1 (owner 7) has `previous_todo_id = 2`; todo 2 exists. -/
def storeC2 : Store := [mkTodoL 1 7 (some 2) none, mkTodo 2 7]

def removeC2a : Except DepError RemoveDependencyResponse × Store :=
  remove_dependency storeC2 5 ⟨1, "previous", 7⟩

def removeC2b : Except DepError RemoveDependencyResponse × Store :=
  remove_dependency removeC2a.snd 6 ⟨1, "previous", 7⟩

/-- C2 (code bug): `remove_dependency` reports success both times, but the link is never
cleared: the usecase sends `previous_todo_id=None`, and `TodoRepositoryService.update`
only assigns fields that are not `None`, so `previous_todo_id` stays `2` after both
calls — contradicting both the claim and the operation's own stated purpose. -/
theorem C2_remove_does_not_clear :
    removeC2a.fst = .ok ⟨1, "previous", true⟩ ∧
    (get_by_id removeC2a.snd 1).map TodoDTO.previous_todo_id = some (some 2) ∧
    removeC2b.fst = .ok ⟨1, "previous", true⟩ ∧
    (get_by_id removeC2b.snd 1).map TodoDTO.previous_todo_id = some (some 2) := by
  decide

/-! ### Claim C7 -/

/-- C7: a self-link request always fails with CircularDependency, leaves the store
unchanged, and the checker answers true immediately on `source_id = candidate_id`. -/
theorem C7_self_link (s : Store) (now tid u : Nat) (T : TodoDTO)
    (hT : get_by_id s tid = some T) (hu : T.user_id = u)
    (typ : String) (htyp : typ = "previous" ∨ typ = "next") :
    set_dependency s now ⟨tid, typ, tid, u⟩ = (.error (.circularDependency tid tid), s) ∧
    wouldCreateCycle s tid tid = true := by
  have hcyc := wouldCreateCycle_self s tid
  refine ⟨?_, hcyc⟩
  rcases htyp with h | h <;> subst h <;> simp [set_dependency, hT, hu, hcyc]

/-- Witness for C7 at a concrete store. -/
theorem C7_witness :
    set_dependency [mkTodo 1 7] 0 ⟨1, "previous", 1, 7⟩ =
      (.error (.circularDependency 1 1), [mkTodo 1 7]) ∧
    wouldCreateCycle [mkTodo 1 7] 1 1 = true :=
  C7_self_link [mkTodo 1 7] 0 1 7 (mkTodo 1 7) (by decide) (by decide)
    "previous" (Or.inl rfl)

/-! ### Claim C8 -/

/-- C8 counterexample store: only todo 2 exists, owned by user 9. -/
def storeC8 : Store := [mkTodo 2 9]

/-- C8 (counterexample): the dependency todo (2) exists with an owner (9) different
from the requesting user (7) — the claim then demands AccessDenied — but because the
source todo (1) is missing, the call fails with NotFound(1) instead. -/
theorem C8_counterexample :
    (set_dependency storeC8 0 ⟨1, "previous", 2, 7⟩).fst = .error (.todoNotFoundById 1) ∧
    (get_by_id storeC8 2).map TodoDTO.user_id = some 9 ∧ (9 : Nat) ≠ 7 := by
  decide

/-- C8 (amended): ownership violations fail with AccessDenied and no write — provided
the todos checked earlier in the sequence exist: a wrongly-owned source todo fails with
AccessDenied(source); with a rightly-owned source, a wrongly-owned existing dependency
todo fails with AccessDenied(dependency).  (A missing source is reported as NotFound
before the dependency todo's owner is ever consulted.)  No cycle hypothesis appears:
the owner checks precede the cycle check. -/
theorem C8_cross_owner (s : Store) (now : Nat) (req : SetDependencyRequest) (T : TodoDTO)
    (hT : get_by_id s req.todo_id = some T) :
    (T.user_id ≠ req.user_id →
      set_dependency s now req =
        (.error (.todoAccessDenied req.todo_id req.user_id), s)) ∧
    (∀ D, T.user_id = req.user_id → get_by_id s req.dependency_todo_id = some D →
      D.user_id ≠ req.user_id →
      set_dependency s now req =
        (.error (.todoAccessDenied req.dependency_todo_id req.user_id), s)) := by
  constructor
  · intro hne
    simp [set_dependency, hT, hne]
  · intro D heq hD hne
    simp [set_dependency, hT, heq, hD, hne]

/-- Witness for C8: source todo 1 exists but belongs to user 9, requester is 7. -/
theorem C8_witness :
    set_dependency [mkTodo 1 9] 0 ⟨1, "previous", 1, 7⟩ =
      (.error (.todoAccessDenied 1 7), [mkTodo 1 9]) :=
  (C8_cross_owner [mkTodo 1 9] 0 ⟨1, "previous", 1, 7⟩ (mkTodo 1 9)
    (by decide)).1 (by decide)

/-! ### Claim C9 -/

/-- C9: a successful `set_dependency` writes only the todo named in the request: every
other row of the table — in particular the dependency todo and its two link fields — is
bit-for-bit unchanged, and on the written row only the link field named by
`dependency_type` (plus the bookkeeping `updated_at` timestamp, set by `update_todo`)
changes; the other link field and all remaining columns keep their old values. -/
theorem C9_frame (s : Store) (now : Nat) (req : SetDependencyRequest)
    (r : SetDependencyResponse) (hok : (set_dependency s now req).fst = .ok r) :
    ∃ T, get_by_id s req.todo_id = some T ∧
    (∀ x, x ≠ req.todo_id → get_by_id (set_dependency s now req).snd x = get_by_id s x) ∧
    ∃ T2, get_by_id (set_dependency s now req).snd req.todo_id = some T2 ∧
      T2.previous_todo_id =
        (if req.dependency_type = "previous" then some req.dependency_todo_id
         else T.previous_todo_id) ∧
      T2.next_todo_id =
        (if req.dependency_type = "next" then some req.dependency_todo_id
         else T.next_todo_id) ∧
      T2.todo_id = T.todo_id ∧ T2.title = T.title ∧ T2.description = T.description ∧
      T2.deadline_timestamp_ms = T.deadline_timestamp_ms ∧ T2.priority = T.priority ∧
      T2.status = T.status ∧ T2.category = T.category ∧ T2.labels = T.labels ∧
      T2.user_id = T.user_id ∧ T2.project_id = T.project_id ∧ T2.order = T.order ∧
      T2.created_at = T.created_at ∧
      T2.completed_at_timestamp_ms = T.completed_at_timestamp_ms ∧
      T2.auto_repeat = T.auto_repeat := by
  obtain ⟨T, D, hT, hTu, hD, hDu, htyp, hcyc⟩ := set_dependency_ok_inv hok
  have hrun := set_dependency_run (n := now) hT hTu hD hDu htyp hcyc
  refine ⟨T, hT, ?_, ?_⟩
  · intro x hx
    rw [hrun]
    exact get_by_id_storeAfterUpdate_other hx
  · refine ⟨applyUpdate T (usecaseUpdateFields now (setDepUpdateRequest req)), ?_, ?_⟩
    · rw [hrun]
      exact get_by_id_storeAfterUpdate_self hT
    · rcases htyp with h | h <;>
        simp [h, applyUpdate, usecaseUpdateFields, setDepUpdateRequest,
          updVal, updOpt, updTruthyNat]

/-- Witness for C9: setting next(1) := 2 on a two-row store succeeds. -/
theorem C9_witness :
    ∃ T, get_by_id [mkTodo 1 7, mkTodo 2 7] 1 = some T ∧
    (∀ x, x ≠ 1 →
      get_by_id (set_dependency [mkTodo 1 7, mkTodo 2 7] 3 ⟨1, "next", 2, 7⟩).snd x =
        get_by_id [mkTodo 1 7, mkTodo 2 7] x) ∧
    ∃ T2, get_by_id (set_dependency [mkTodo 1 7, mkTodo 2 7] 3 ⟨1, "next", 2, 7⟩).snd 1 =
        some T2 ∧
      T2.previous_todo_id = (if ("next" : String) = "previous" then some 2
         else T.previous_todo_id) ∧
      T2.next_todo_id = (if ("next" : String) = "next" then some 2 else T.next_todo_id) ∧
      T2.todo_id = T.todo_id ∧ T2.title = T.title ∧ T2.description = T.description ∧
      T2.deadline_timestamp_ms = T.deadline_timestamp_ms ∧ T2.priority = T.priority ∧
      T2.status = T.status ∧ T2.category = T.category ∧ T2.labels = T.labels ∧
      T2.user_id = T.user_id ∧ T2.project_id = T.project_id ∧ T2.order = T.order ∧
      T2.created_at = T.created_at ∧
      T2.completed_at_timestamp_ms = T.completed_at_timestamp_ms ∧
      T2.auto_repeat = T.auto_repeat :=
  C9_frame [mkTodo 1 7, mkTodo 2 7] 3 ⟨1, "next", 2, 7⟩ ⟨1, "next", 2, true⟩ (by decide)

/-! ### Claim C10 -/

/-- C10: whenever `set_dependency` or `remove_dependency` fails with a typed error, no
write was issued: the resulting store is exactly the input store.  (In the source every
`raise` precedes the single `update_todo` call, and `update_todo` itself raises before
its one `save()`.) -/
theorem C10_no_write_on_error (s : Store) (now : Nat)
    (sreq : SetDependencyRequest) (rreq : RemoveDependencyRequest) :
    (∀ e, (set_dependency s now sreq).fst = .error e →
      (set_dependency s now sreq).snd = s) ∧
    (∀ e, (remove_dependency s now rreq).fst = .error e →
      (remove_dependency s now rreq).snd = s) :=
  ⟨fun _ h => set_dependency_error_state h, fun _ h => remove_dependency_error_state h⟩

/-- Witness for C10 on the empty store, where both operations fail with NotFound. -/
theorem C10_witness :
    (set_dependency [] 0 ⟨1, "previous", 2, 7⟩).snd = [] ∧
    (remove_dependency [] 0 ⟨1, "previous", 7⟩).snd = [] :=
  ⟨(C10_no_write_on_error [] 0 ⟨1, "previous", 2, 7⟩ ⟨1, "previous", 7⟩).1
      (.todoNotFoundById 1) (by decide),
   (C10_no_write_on_error [] 0 ⟨1, "previous", 2, 7⟩ ⟨1, "previous", 7⟩).2
      (.todoNotFoundById 1) (by decide)⟩

/-! ### Claim C4 -/

/-- C4 counterexample store: todo 1 (owner 7) has previous = 2; todo 2 is link-free. -/
def storeC4 : Store := [mkTodoL 1 7 (some 2) none, mkTodo 2 7]

/-- C4 (counterexample): validating todo 1 succeeds with no cycle, but reports
`chain_length = 1` although the successful walks of the previous chain and the next
chain visited 2 distinct nodes (1 and 2) — `visited.clear()` between the loops drops
the previous-chain nodes from the count. -/
theorem C4_counterexample :
    validate_dependency storeC4 ⟨1, 7⟩ =
      .ok { todo_id := 1, is_valid := true, has_circular_dependency := false,
            chain_length := 1, message := "Dependency chain is valid" } ∧
    ((prevWalkAux storeC4 (walkFuel storeC4) 1 []).snd ++
      (nextWalkAux storeC4 (walkFuel storeC4) 1 []).snd).dedup.length = 2 ∧
    (1 : Nat) ≠ 2 := by
  decide

/-- C4 (amended): for an existing, owned todo, `validate_dependency` succeeds with
`is_valid = not has_circular_dependency`, `has_circular_dependency` the disjunction of
the two walks' cycle flags, and `chain_length` the number of distinct nodes visited by
the NEXT-chain walk only (the visited set is cleared between the walks), or 0 when a
cycle was flagged. -/
theorem C4_validate_shape (s : Store) (req : ValidateDependencyRequest) (T : TodoDTO)
    (hT : get_by_id s req.todo_id = some T) (hu : T.user_id = req.user_id) :
    ∃ r, validate_dependency s req = .ok r ∧
      r.is_valid = !r.has_circular_dependency ∧
      r.has_circular_dependency =
        ((prevWalkAux s (walkFuel s) req.todo_id []).fst ||
          (nextWalkAux s (walkFuel s) req.todo_id []).fst) ∧
      r.chain_length = (if r.has_circular_dependency then 0
        else (nextWalkAux s (walkFuel s) req.todo_id []).snd.length) := by
  have hrun : validate_dependency s req = .ok
      { todo_id := req.todo_id
        is_valid := !((prevWalkAux s (walkFuel s) req.todo_id []).fst ||
          (nextWalkAux s (walkFuel s) req.todo_id []).fst)
        has_circular_dependency := (prevWalkAux s (walkFuel s) req.todo_id []).fst ||
          (nextWalkAux s (walkFuel s) req.todo_id []).fst
        chain_length := if ((prevWalkAux s (walkFuel s) req.todo_id []).fst ||
            (nextWalkAux s (walkFuel s) req.todo_id []).fst) then 0
          else (nextWalkAux s (walkFuel s) req.todo_id []).snd.length
        message := if !((prevWalkAux s (walkFuel s) req.todo_id []).fst ||
            (nextWalkAux s (walkFuel s) req.todo_id []).fst) then "Dependency chain is valid"
          else "Circular dependency detected" } := by
    simp [validate_dependency, hT, hu]
  exact ⟨_, hrun, rfl, rfl, rfl⟩

/-- Witness for C4 on a one-row store. -/
theorem C4_witness :
    ∃ r, validate_dependency [mkTodo 1 7] ⟨1, 7⟩ = .ok r ∧
      r.is_valid = !r.has_circular_dependency ∧
      r.has_circular_dependency =
        ((prevWalkAux [mkTodo 1 7] (walkFuel [mkTodo 1 7]) 1 []).fst ||
          (nextWalkAux [mkTodo 1 7] (walkFuel [mkTodo 1 7]) 1 []).fst) ∧
      r.chain_length = (if r.has_circular_dependency then 0
        else (nextWalkAux [mkTodo 1 7] (walkFuel [mkTodo 1 7]) 1 []).snd.length) :=
  C4_validate_shape [mkTodo 1 7] ⟨1, 7⟩ (mkTodo 1 7) (by decide) (by decide)

/-! ### Claim C5: successful writes keep the link graph acyclic -/

lemma pyOptId_none : pyOptId none = none := rfl

lemma pyOptId_some {v b : Nat} (h : pyOptId (some v) = some b) : b = v := by
  cases v with
  | zero => simp [pyOptId] at h
  | succ k =>
      have : pyOptId (some (k + 1)) = some (k + 1) := rfl
      rw [this] at h
      exact (Option.some_inj.mp h).symm

/-- Every edge of the store after a successful `set_dependency` write is either an old
edge or the single freshly written link. -/
lemma edge_storeAfterUpdate_sub {s : Store} {req : SetDependencyRequest} {now : Nat}
    (htyp : req.dependency_type = "previous" ∨ req.dependency_type = "next")
    {a b : Nat}
    (h : EdgeR (storeAfterUpdate s req.todo_id
      (usecaseUpdateFields now (setDepUpdateRequest req))) a b) :
    EdgeR s a b ∨ (a = req.todo_id ∧ b = req.dependency_todo_id) := by
  obtain ⟨t', hget', hlink'⟩ := h
  rw [get_by_id_storeAfterUpdate] at hget'
  cases hg : get_by_id s a with
  | none => rw [hg] at hget'; simp at hget'
  | some t =>
      rw [hg, Option.map_some'] at hget'
      have ht' : t' = if t.todo_id = req.todo_id then
          applyUpdate t (usecaseUpdateFields now (setDepUpdateRequest req)) else t :=
        (Option.some_inj.mp hget').symm
      by_cases hid : t.todo_id = req.todo_id
      · have ha : a = req.todo_id := by rw [← get_by_id_id hg, hid]
        rw [if_pos hid] at ht'
        subst ht'
        rcases htyp with hty | hty
        · -- dependency_type = "previous": the written row has prev = some dep, next kept
          have hPrev : (applyUpdate t
              (usecaseUpdateFields now (setDepUpdateRequest req))).previous_todo_id =
              some req.dependency_todo_id := by
            simp [applyUpdate, usecaseUpdateFields, setDepUpdateRequest, hty, updOpt]
          have hNext : (applyUpdate t
              (usecaseUpdateFields now (setDepUpdateRequest req))).next_todo_id =
              t.next_todo_id := by
            simp [applyUpdate, usecaseUpdateFields, setDepUpdateRequest, hty, updOpt]
          rcases hlink' with hp | hn
          · rw [hPrev] at hp
            exact Or.inr ⟨ha, pyOptId_some hp⟩
          · rw [hNext] at hn
            exact Or.inl ⟨t, hg, Or.inr hn⟩
        · have hPrev : (applyUpdate t
              (usecaseUpdateFields now (setDepUpdateRequest req))).previous_todo_id =
              t.previous_todo_id := by
            have hne : ¬ req.dependency_type = "previous" := by simp [hty]
            simp [applyUpdate, usecaseUpdateFields, setDepUpdateRequest, hne, updOpt]
          have hNext : (applyUpdate t
              (usecaseUpdateFields now (setDepUpdateRequest req))).next_todo_id =
              some req.dependency_todo_id := by
            have hne : ¬ req.dependency_type = "previous" := by simp [hty]
            simp [applyUpdate, usecaseUpdateFields, setDepUpdateRequest, hne, updOpt]
          rcases hlink' with hp | hn
          · rw [hPrev] at hp
            exact Or.inl ⟨t, hg, Or.inl hp⟩
          · rw [hNext] at hn
            exact Or.inr ⟨ha, pyOptId_some hn⟩
      · rw [if_neg hid] at ht'
        subst ht'
        exact Or.inl ⟨t', hg, hlink'⟩

/-- Decomposing reachability in a graph extended by a single edge `t → d`, given that
`t` is not reachable from `d` in the old graph. -/
lemma reflTransGen_new_edge_decomp {R R' : Nat → Nat → Prop} {t d : Nat}
    (hsub : ∀ a b, R' a b → R a b ∨ (a = t ∧ b = d))
    (hnr : ¬ Relation.ReflTransGen R d t) :
    ∀ a b, Relation.ReflTransGen R' a b →
      Relation.ReflTransGen R a b ∨
      (Relation.ReflTransGen R a t ∧ Relation.ReflTransGen R d b) := by
  intro a b h
  induction h with
  | refl => exact Or.inl .refl
  | tail hab hedge ih =>
      rcases hsub _ _ hedge with hR | ⟨hc, hb⟩
      · rcases ih with h1 | ⟨h1, h2⟩
        · exact Or.inl (h1.tail hR)
        · exact Or.inr ⟨h1, h2.tail hR⟩
      · subst hc
        subst hb
        rcases ih with h1 | ⟨h1, h2⟩
        · exact Or.inr ⟨h1, .refl⟩
        · exact absurd h2 hnr

/-- Adding one edge `t → d` to an acyclic graph keeps it acyclic, provided `t` was not
reachable from `d`. -/
lemma noCycle_new_edge {R R' : Nat → Nat → Prop} {t d : Nat}
    (hnc : ∀ n, ¬ Relation.TransGen R n n)
    (hnr : ¬ Relation.ReflTransGen R d t)
    (hsub : ∀ a b, R' a b → R a b ∨ (a = t ∧ b = d)) :
    ∀ n, ¬ Relation.TransGen R' n n := by
  intro n hcyc
  obtain ⟨m, hedge, hrest⟩ := (Relation.TransGen.head'_iff).mp hcyc
  rcases hsub _ _ hedge with hR | ⟨hn, hm⟩
  · rcases reflTransGen_new_edge_decomp hsub hnr m n hrest with h1 | ⟨h1, h2⟩
    · exact hnc n (Relation.TransGen.head' hR h1)
    · exact hnr ((h2.tail hR).trans h1)
  · rw [hn, hm] at hrest
    rcases reflTransGen_new_edge_decomp hsub hnr d t hrest with h1 | ⟨h1, _⟩
    · exact hnr h1
    · exact hnr h1

/-- A successful or failed `set_dependency` call preserves acyclicity of the link
graph: the checker only lets through writes whose target cannot reach the source. -/
lemma set_dependency_preserves_noCycle (s : Store) (now : Nat)
    (req : SetDependencyRequest) (hnc : NoCycle s) :
    NoCycle (set_dependency s now req).snd := by
  cases hres : (set_dependency s now req).fst with
  | error e => rw [set_dependency_error_state hres]; exact hnc
  | ok r =>
      obtain ⟨T, D, hT, hTu, hD, hDu, htyp, hcyc⟩ := set_dependency_ok_inv hres
      have hrun := set_dependency_run (n := now) hT hTu hD hDu htyp hcyc
      have hsnd : (set_dependency s now req).snd =
          storeAfterUpdate s req.todo_id
            (usecaseUpdateFields now (setDepUpdateRequest req)) := by rw [hrun]
      rw [hsnd]
      have hnr : ¬ Relation.ReflTransGen (EdgeR s) req.dependency_todo_id req.todo_id :=
        wouldCreateCycle_false_not_reach hcyc
      exact noCycle_new_edge hnc hnr (fun a b h => edge_storeAfterUpdate_sub htyp h)

/-- The previous-chain walk of `validate_dependency` only ever holds, in its visited
list, a backwards-consecutive previous-chain ending at the current node. -/
inductive PrevLinked (s : Store) : List Nat → Nat → Prop
  | nil (cur : Nat) : PrevLinked s [] cur
  | cons (vis : List Nat) (cur : Nat) (t : TodoDTO) (p : Nat) :
      PrevLinked s vis cur → get_by_id s cur = some t →
      pyOptId t.previous_todo_id = some p → PrevLinked s (cur :: vis) p

inductive NextLinked (s : Store) : List Nat → Nat → Prop
  | nil (cur : Nat) : NextLinked s [] cur
  | cons (vis : List Nat) (cur : Nat) (t : TodoDTO) (nx : Nat) :
      NextLinked s vis cur → get_by_id s cur = some t →
      pyOptId t.next_todo_id = some nx → NextLinked s (cur :: vis) nx

lemma prevLinked_mem_transGen {s : Store} {l : List Nat} {c : Nat}
    (h : PrevLinked s l c) : ∀ x ∈ l, Relation.TransGen (EdgeR s) x c := by
  induction h with
  | nil => simp
  | cons vis cur t p _ hget hp ih =>
      intro x hx
      have hedge : EdgeR s cur p := ⟨t, hget, Or.inl hp⟩
      rcases List.mem_cons.mp hx with hxc | hx'
      · exact hxc ▸ Relation.TransGen.single hedge
      · exact (ih x hx').tail hedge

lemma nextLinked_mem_transGen {s : Store} {l : List Nat} {c : Nat}
    (h : NextLinked s l c) : ∀ x ∈ l, Relation.TransGen (EdgeR s) x c := by
  induction h with
  | nil => simp
  | cons vis cur t nx _ hget hn ih =>
      intro x hx
      have hedge : EdgeR s cur nx := ⟨t, hget, Or.inr hn⟩
      rcases List.mem_cons.mp hx with hxc | hx'
      · exact hxc ▸ Relation.TransGen.single hedge
      · exact (ih x hx').tail hedge

lemma prevWalkAux_no_cycle {s : Store} (hnc : NoCycle s) :
    ∀ fuel cur vis, PrevLinked s vis cur → (prevWalkAux s fuel cur vis).fst = false := by
  intro fuel
  induction fuel with
  | zero => intro cur vis _; simp [prevWalkAux]
  | succ fuel ih =>
      intro cur vis hl
      by_cases h0 : cur = 0 ∨ cur ∈ vis
      · simp [prevWalkAux, h0]
      · cases hg : get_by_id s cur with
        | none => simp [prevWalkAux, h0, hg]
        | some t =>
            cases hp : pyOptId t.previous_todo_id with
            | none => simp [prevWalkAux, h0, hg, hp]
            | some p =>
                have hl1 : PrevLinked s (cur :: vis) p := .cons _ _ _ _ hl hg hp
                by_cases hmem : p ∈ cur :: vis
                · exact absurd (prevLinked_mem_transGen hl1 p hmem) (hnc p)
                · simpa [prevWalkAux, h0, hg, hp, hmem] using ih p (cur :: vis) hl1

lemma nextWalkAux_no_cycle {s : Store} (hnc : NoCycle s) :
    ∀ fuel cur vis, NextLinked s vis cur → (nextWalkAux s fuel cur vis).fst = false := by
  intro fuel
  induction fuel with
  | zero => intro cur vis _; simp [nextWalkAux]
  | succ fuel ih =>
      intro cur vis hl
      by_cases h0 : cur = 0 ∨ cur ∈ vis
      · simp [nextWalkAux, h0]
      · cases hg : get_by_id s cur with
        | none => simp [nextWalkAux, h0, hg]
        | some t =>
            cases hp : pyOptId t.next_todo_id with
            | none => simp [nextWalkAux, h0, hg, hp]
            | some nx =>
                have hl1 : NextLinked s (cur :: vis) nx := .cons _ _ _ _ hl hg hp
                by_cases hmem : nx ∈ cur :: vis
                · exact absurd (nextLinked_mem_transGen hl1 nx hmem) (hnc nx)
                · simpa [nextWalkAux, h0, hg, hp, hmem] using ih nx (cur :: vis) hl1

/-- On an acyclic store, `validate_dependency` never reports a circular dependency. -/
lemma validate_no_cycle {s : Store} (hnc : NoCycle s) (req : ValidateDependencyRequest)
    (r : ValidateDependencyResponse) (h : validate_dependency s req = .ok r) :
    r.has_circular_dependency = false := by
  cases hg : get_by_id s req.todo_id with
  | none => simp [validate_dependency, hg] at h
  | some T =>
      by_cases hu : T.user_id = req.user_id
      · have hp := prevWalkAux_no_cycle hnc (walkFuel s) req.todo_id [] (.nil _)
        have hn := nextWalkAux_no_cycle hnc (walkFuel s) req.todo_id [] (.nil _)
        simp [validate_dependency, hg, hu, hp, hn] at h
        cases h
        rfl
      · simp [validate_dependency, hg, hu] at h

/-- Replay a list of `(clock, request)` `set_dependency` calls, each against the store
left by the previous one (a failing call leaves the store unchanged). -/
def applyOps (s : Store) (ops : List (Nat × SetDependencyRequest)) : Store :=
  ops.foldl (fun st op => (set_dependency st op.fst op.snd).snd) s

lemma noCycle_applyOps {s : Store} (h : NoCycle s)
    (ops : List (Nat × SetDependencyRequest)) : NoCycle (applyOps s ops) := by
  induction ops generalizing s with
  | nil => exact h
  | cons op rest ih =>
      exact ih (set_dependency_preserves_noCycle s op.fst op.snd h)

/-- C5: starting from a link-free store, after any sequence of `set_dependency` calls
(the successful ones write, the failed ones provably leave the store unchanged),
`validate_dependency` on any todo — in particular any touched one — never reports a
circular dependency. -/
theorem C5_acyclicity_invariant (s0 : Store)
    (hfree : ∀ t ∈ s0, t.previous_todo_id = none ∧ t.next_todo_id = none)
    (ops : List (Nat × SetDependencyRequest)) :
    ∀ req r, validate_dependency (applyOps s0 ops) req = .ok r →
      r.has_circular_dependency = false := by
  have h0 : NoCycle s0 := by
    intro n hcyc
    obtain ⟨m, hedge, _⟩ := (Relation.TransGen.head'_iff).mp hcyc
    obtain ⟨t, hget, hlink⟩ := hedge
    have hf := hfree t (get_by_id_mem hget)
    rcases hlink with hp | hn
    · rw [hf.1] at hp; exact Option.noConfusion hp
    · rw [hf.2] at hn; exact Option.noConfusion hn
  intro req r h
  exact validate_no_cycle (noCycle_applyOps h0 ops) req r h

/-- Witness for C5: two link-free todos, one successful `set_dependency`, then a
validation that indeed reports no circular dependency. -/
theorem C5_witness :
    validate_dependency (applyOps [mkTodo 1 7, mkTodo 2 7] [(5, ⟨1, "next", 2, 7⟩)]) ⟨1, 7⟩ =
      .ok ⟨1, true, false, 2, "Dependency chain is valid"⟩ ∧
    (⟨1, true, false, 2, "Dependency chain is valid"⟩ :
        ValidateDependencyResponse).has_circular_dependency = false :=
  ⟨by decide,
   C5_acyclicity_invariant [mkTodo 1 7, mkTodo 2 7] (by decide)
     [(5, ⟨1, "next", 2, 7⟩)] ⟨1, 7⟩ ⟨1, true, false, 2, "Dependency chain is valid"⟩
     (by decide)⟩

/-! ### Claim C6: cycles of one direction are detected, mixed cycles are not -/

/-- One step of the previous-chain walk: fetch the row, take its truthy previous link. -/
def prevStepPy (s : Store) (i : Nat) : Option Nat :=
  match get_by_id s i with
  | none => none
  | some t => pyOptId t.previous_todo_id

/-- One step of the next-chain walk. -/
def nextStepPy (s : Store) (i : Nat) : Option Nat :=
  match get_by_id s i with
  | none => none
  | some t => pyOptId t.next_todo_id

/-- `k`-fold iteration of the previous step; `none` as soon as a step is undefined. -/
def prevIterN (s : Store) : Nat → Nat → Option Nat
  | 0, i => some i
  | k + 1, i =>
      match prevStepPy s i with
      | none => none
      | some j => prevIterN s k j

def nextIterN (s : Store) : Nat → Nat → Option Nat
  | 0, i => some i
  | k + 1, i =>
      match nextStepPy s i with
      | none => none
      | some j => nextIterN s k j

lemma pyOptId_some_ne_zero {o : Option Nat} {j : Nat} (h : pyOptId o = some j) : j ≠ 0 := by
  match o with
  | none => exact Option.noConfusion h
  | some 0 => exact Option.noConfusion h
  | some (k + 1) =>
      have heq : pyOptId (some (k + 1)) = some (k + 1) := rfl
      rw [heq] at h
      rw [← Option.some_inj.mp h]
      exact Nat.succ_ne_zero k

lemma prevStepPy_ne_zero {s : Store} {i j : Nat} (h : prevStepPy s i = some j) : j ≠ 0 := by
  unfold prevStepPy at h
  cases hg : get_by_id s i with
  | none => rw [hg] at h; exact Option.noConfusion h
  | some t => rw [hg] at h; exact pyOptId_some_ne_zero h

lemma nextStepPy_ne_zero {s : Store} {i j : Nat} (h : nextStepPy s i = some j) : j ≠ 0 := by
  unfold nextStepPy at h
  cases hg : get_by_id s i with
  | none => rw [hg] at h; exact Option.noConfusion h
  | some t => rw [hg] at h; exact pyOptId_some_ne_zero h

lemma prevIterN_add (s : Store) (a b i : Nat) :
    prevIterN s (a + b) i =
      (prevIterN s a i).bind (fun j => prevIterN s b j) := by
  induction a generalizing i with
  | zero => simp [prevIterN]
  | succ a ih =>
      have h1 : a + 1 + b = (a + b) + 1 := by omega
      rw [h1]
      show (match prevStepPy s i with
        | none => none
        | some j => prevIterN s (a + b) j) = _
      cases hs : prevStepPy s i with
      | none => simp [prevIterN, hs]
      | some j => simp [prevIterN, hs, ih]

lemma nextIterN_add (s : Store) (a b i : Nat) :
    nextIterN s (a + b) i =
      (nextIterN s a i).bind (fun j => nextIterN s b j) := by
  induction a generalizing i with
  | zero => simp [nextIterN]
  | succ a ih =>
      have h1 : a + 1 + b = (a + b) + 1 := by omega
      rw [h1]
      show (match nextStepPy s i with
        | none => none
        | some j => nextIterN s (a + b) j) = _
      cases hs : nextStepPy s i with
      | none => simp [nextIterN, hs]
      | some j => simp [nextIterN, hs, ih]

/-- A concrete previous-chain: from `a`, successive previous steps pass exactly
through the list `l`, ending at `c` (the last element of `a :: l`). -/
inductive PrevChain (s : Store) : Nat → List Nat → Nat → Prop
  | nil (a : Nat) : PrevChain s a [] a
  | cons (a b c : Nat) (l : List Nat) :
      prevStepPy s a = some b → PrevChain s b l c → PrevChain s a (b :: l) c

inductive NextChain (s : Store) : Nat → List Nat → Nat → Prop
  | nil (a : Nat) : NextChain s a [] a
  | cons (a b c : Nat) (l : List Nat) :
      nextStepPy s a = some b → NextChain s b l c → NextChain s a (b :: l) c

lemma prevIterN_toChain {s : Store} :
    ∀ {k a c}, prevIterN s k a = some c →
      ∃ l : List Nat, l.length = k ∧ PrevChain s a l c := by
  intro k
  induction k with
  | zero =>
      intro a c h
      have : a = c := by simpa [prevIterN] using h
      exact ⟨[], rfl, this ▸ PrevChain.nil a⟩
  | succ k ih =>
      intro a c h
      rw [show prevIterN s (k + 1) a = (match prevStepPy s a with
        | none => none
        | some j => prevIterN s k j) from rfl] at h
      cases hs : prevStepPy s a with
      | none => rw [hs] at h; exact Option.noConfusion h
      | some b =>
          rw [hs] at h
          obtain ⟨l, hlen, hchain⟩ := ih h
          exact ⟨b :: l, by simp [hlen], PrevChain.cons a b c l hs hchain⟩

lemma nextIterN_toChain {s : Store} :
    ∀ {k a c}, nextIterN s k a = some c →
      ∃ l : List Nat, l.length = k ∧ NextChain s a l c := by
  intro k
  induction k with
  | zero =>
      intro a c h
      have : a = c := by simpa [nextIterN] using h
      exact ⟨[], rfl, this ▸ NextChain.nil a⟩
  | succ k ih =>
      intro a c h
      rw [show nextIterN s (k + 1) a = (match nextStepPy s a with
        | none => none
        | some j => nextIterN s k j) from rfl] at h
      cases hs : nextStepPy s a with
      | none => rw [hs] at h; exact Option.noConfusion h
      | some b =>
          rw [hs] at h
          obtain ⟨l, hlen, hchain⟩ := ih h
          exact ⟨b :: l, by simp [hlen], NextChain.cons a b c l hs hchain⟩

lemma prevChain_get_iter {s : Store} :
    ∀ {a l c}, PrevChain s a l c →
      ∀ i (h : i < l.length), prevIterN s (i + 1) a = some (l.get ⟨i, h⟩) := by
  intro a l c hchain
  induction hchain with
  | nil => intro i h; simp at h
  | cons a b c l hs _ ih =>
      intro i h
      cases i with
      | zero =>
          show prevIterN s 1 a = some b
          rw [show prevIterN s 1 a = (match prevStepPy s a with
            | none => none
            | some j => prevIterN s 0 j) from rfl, hs]
          rfl
      | succ i =>
          have h' : i < l.length := by simpa using h
          have hstep : prevIterN s (i + 1 + 1) a =
              (prevIterN s 1 a).bind (fun j => prevIterN s (i + 1) j) := by
            rw [show i + 1 + 1 = 1 + (i + 1) from by omega, prevIterN_add]
          have h1 : prevIterN s 1 a = some b := by
            rw [show prevIterN s 1 a = (match prevStepPy s a with
              | none => none
              | some j => prevIterN s 0 j) from rfl, hs]
            rfl
          rw [hstep, h1]
          simpa using ih i h'

lemma nextChain_get_iter {s : Store} :
    ∀ {a l c}, NextChain s a l c →
      ∀ i (h : i < l.length), nextIterN s (i + 1) a = some (l.get ⟨i, h⟩) := by
  intro a l c hchain
  induction hchain with
  | nil => intro i h; simp at h
  | cons a b c l hs _ ih =>
      intro i h
      cases i with
      | zero =>
          show nextIterN s 1 a = some b
          rw [show nextIterN s 1 a = (match nextStepPy s a with
            | none => none
            | some j => nextIterN s 0 j) from rfl, hs]
          rfl
      | succ i =>
          have h' : i < l.length := by simpa using h
          have hstep : nextIterN s (i + 1 + 1) a =
              (nextIterN s 1 a).bind (fun j => nextIterN s (i + 1) j) := by
            rw [show i + 1 + 1 = 1 + (i + 1) from by omega, nextIterN_add]
          have h1 : nextIterN s 1 a = some b := by
            rw [show nextIterN s 1 a = (match nextStepPy s a with
              | none => none
              | some j => nextIterN s 0 j) from rfl, hs]
            rfl
          rw [hstep, h1]
          simpa using ih i h'

lemma prevChain_split_last {s : Store} :
    ∀ {a l c}, PrevChain s a l c → l ≠ [] →
      ∃ l0 e, l = l0 ++ [c] ∧ PrevChain s a l0 e ∧ prevStepPy s e = some c := by
  intro a l c hchain
  induction hchain with
  | nil => intro h; exact absurd rfl h
  | cons a b c l hs hchain ih =>
      intro _
      cases l with
      | nil =>
          cases hchain
          exact ⟨[], a, rfl, PrevChain.nil a, hs⟩
      | cons x l' =>
          obtain ⟨l0, e, heq, hch, hst⟩ := ih (by simp)
          exact ⟨b :: l0, e, by rw [heq]; rfl, PrevChain.cons a b e l0 hs hch, hst⟩

lemma nextChain_split_last {s : Store} :
    ∀ {a l c}, NextChain s a l c → l ≠ [] →
      ∃ l0 e, l = l0 ++ [c] ∧ NextChain s a l0 e ∧ nextStepPy s e = some c := by
  intro a l c hchain
  induction hchain with
  | nil => intro h; exact absurd rfl h
  | cons a b c l hs hchain ih =>
      intro _
      cases l with
      | nil =>
          cases hchain
          exact ⟨[], a, rfl, NextChain.nil a, hs⟩
      | cons x l' =>
          obtain ⟨l0, e, heq, hch, hst⟩ := ih (by simp)
          exact ⟨b :: l0, e, by rw [heq]; rfl, NextChain.cons a b e l0 hs hch, hst⟩

lemma prevChain_mem_ne_zero {s : Store} :
    ∀ {a l c}, PrevChain s a l c → ∀ x ∈ l, x ≠ 0 := by
  intro a l c hchain
  induction hchain with
  | nil => simp
  | cons a b c l hs _ ih =>
      intro x hx
      rcases List.mem_cons.mp hx with hb | hl
      · exact hb ▸ prevStepPy_ne_zero hs
      · exact ih x hl

lemma nextChain_mem_ne_zero {s : Store} :
    ∀ {a l c}, NextChain s a l c → ∀ x ∈ l, x ≠ 0 := by
  intro a l c hchain
  induction hchain with
  | nil => simp
  | cons a b c l hs _ ih =>
      intro x hx
      rcases List.mem_cons.mp hx with hb | hl
      · exact hb ▸ nextStepPy_ne_zero hs
      · exact ih x hl

lemma prevStepPy_fetch {s : Store} {i j : Nat} (h : prevStepPy s i = some j) :
    ∃ t, get_by_id s i = some t := by
  unfold prevStepPy at h
  cases hg : get_by_id s i with
  | none => rw [hg] at h; exact Option.noConfusion h
  | some t => exact ⟨t, rfl⟩

lemma nextStepPy_fetch {s : Store} {i j : Nat} (h : nextStepPy s i = some j) :
    ∃ t, get_by_id s i = some t := by
  unfold nextStepPy at h
  cases hg : get_by_id s i with
  | none => rw [hg] at h; exact Option.noConfusion h
  | some t => exact ⟨t, rfl⟩

/-- Every node of a chain (including the head) whose tail step is also defined can be
fetched from the store. -/
lemma prevChain_mem_fetch {s : Store} :
    ∀ {a l c z}, PrevChain s a l c → prevStepPy s c = some z →
      ∀ x ∈ a :: l, ∃ t, get_by_id s x = some t := by
  intro a l c z hchain
  induction hchain with
  | nil =>
      intro hz x hx
      rcases List.mem_cons.mp hx with hxa | hxl
      · exact hxa ▸ prevStepPy_fetch hz
      · simp at hxl
  | cons a b c l hs _ ih =>
      intro hz x hx
      rcases List.mem_cons.mp hx with hxa | hxl
      · exact hxa ▸ prevStepPy_fetch hs
      · exact ih hz x hxl

lemma nextChain_mem_fetch {s : Store} :
    ∀ {a l c z}, NextChain s a l c → nextStepPy s c = some z →
      ∀ x ∈ a :: l, ∃ t, get_by_id s x = some t := by
  intro a l c z hchain
  induction hchain with
  | nil =>
      intro hz x hx
      rcases List.mem_cons.mp hx with hxa | hxl
      · exact hxa ▸ nextStepPy_fetch hz
      · simp at hxl
  | cons a b c l hs _ ih =>
      intro hz x hx
      rcases List.mem_cons.mp hx with hxa | hxl
      · exact hxa ▸ nextStepPy_fetch hs
      · exact ih hz x hxl

lemma get_by_id_mem_ids {s : Store} {x : Nat} {t : TodoDTO}
    (h : get_by_id s x = some t) : x ∈ s.map TodoDTO.todo_id :=
  List.mem_map.mpr ⟨t, get_by_id_mem h, get_by_id_id h⟩

/-- Minimal period of a previous-link cycle: the first return to `n` passes through
pairwise-distinct orbit values. -/
lemma prev_min_cycle {s : Store} {n k : Nat} (hk : 0 < k)
    (hcyc : prevIterN s k n = some n) :
    ∃ k0, 0 < k0 ∧ prevIterN s k0 n = some n ∧
      ∀ i j, i < k0 → j < k0 → prevIterN s i n = prevIterN s j n → i = j := by
  have hex : ∃ m, 0 < m ∧ prevIterN s m n = some n := ⟨k, hk, hcyc⟩
  refine ⟨Nat.find hex, (Nat.find_spec hex).1, (Nat.find_spec hex).2, ?_⟩
  have key : ∀ i j, i < j → j < Nat.find hex →
      prevIterN s i n = prevIterN s j n → False := by
    intro i j hij hj heq
    have hsplit : prevIterN s (j + (Nat.find hex - j)) n = some n := by
      rw [show j + (Nat.find hex - j) = Nat.find hex from by omega]
      exact (Nat.find_spec hex).2
    rw [prevIterN_add] at hsplit
    have hshort : prevIterN s (i + (Nat.find hex - j)) n = some n := by
      rw [prevIterN_add, heq]
      exact hsplit
    exact (Nat.find_min hex (show i + (Nat.find hex - j) < Nat.find hex from by omega))
      ⟨by omega, hshort⟩
  intro i j hi hj heq
  rcases Nat.lt_trichotomy i j with h | h | h
  · exact absurd heq (fun hq => key i j h hj hq)
  · exact h
  · exact absurd heq.symm (fun hq => key j i h hi hq)

lemma next_min_cycle {s : Store} {n k : Nat} (hk : 0 < k)
    (hcyc : nextIterN s k n = some n) :
    ∃ k0, 0 < k0 ∧ nextIterN s k0 n = some n ∧
      ∀ i j, i < k0 → j < k0 → nextIterN s i n = nextIterN s j n → i = j := by
  have hex : ∃ m, 0 < m ∧ nextIterN s m n = some n := ⟨k, hk, hcyc⟩
  refine ⟨Nat.find hex, (Nat.find_spec hex).1, (Nat.find_spec hex).2, ?_⟩
  have key : ∀ i j, i < j → j < Nat.find hex →
      nextIterN s i n = nextIterN s j n → False := by
    intro i j hij hj heq
    have hsplit : nextIterN s (j + (Nat.find hex - j)) n = some n := by
      rw [show j + (Nat.find hex - j) = Nat.find hex from by omega]
      exact (Nat.find_spec hex).2
    rw [nextIterN_add] at hsplit
    have hshort : nextIterN s (i + (Nat.find hex - j)) n = some n := by
      rw [nextIterN_add, heq]
      exact hsplit
    exact (Nat.find_min hex (show i + (Nat.find hex - j) < Nat.find hex from by omega))
      ⟨by omega, hshort⟩
  intro i j hi hj heq
  rcases Nat.lt_trichotomy i j with h | h | h
  · exact absurd heq (fun hq => key i j h hj hq)
  · exact h
  · exact absurd heq.symm (fun hq => key j i h hi hq)

/-- If the walk stands at the head of a fresh previous-chain whose final step points
back into the territory it will have visited, it flags the cycle. -/
lemma prevWalk_detect (s : Store) :
    ∀ (l : List Nat) (fuel cur : Nat) (vis : List Nat) (e p : Nat),
      l.length < fuel →
      PrevChain s cur l e →
      (cur :: l).Nodup →
      cur ≠ 0 →
      (∀ x ∈ cur :: l, x ∉ vis) →
      prevStepPy s e = some p →
      (p ∈ cur :: l ∨ p ∈ vis) →
      (prevWalkAux s fuel cur vis).fst = true := by
  intro l
  induction l with
  | nil =>
      intro fuel cur vis e p hfuel hchain hnd h0 hvis hstep hp
      cases hchain
      cases fuel with
      | zero => omega
      | succ f =>
          have hcv : ¬ (cur = 0 ∨ cur ∈ vis) := by
            push_neg
            exact ⟨h0, hvis cur (by simp)⟩
          cases hg : get_by_id s cur with
          | none =>
              have : prevStepPy s cur = none := by unfold prevStepPy; rw [hg]
              rw [this] at hstep
              exact Option.noConfusion hstep
          | some t =>
              have hstep2 : pyOptId t.previous_todo_id = some p := by
                unfold prevStepPy at hstep
                rw [hg] at hstep
                exact hstep
              have hpmem : p = cur ∨ p ∈ vis := by
                rcases hp with h | h
                · simp at h; exact Or.inl h
                · exact Or.inr h
              simp [prevWalkAux, hcv, hg, hstep2, hpmem]
  | cons b l' ih =>
      intro fuel cur vis e p hfuel hchain hnd h0 hvis hstep hp
      cases hchain with
      | cons _ _ _ _ hs hchain' =>
          cases fuel with
          | zero => simp at hfuel
          | succ f =>
              have hcv : ¬ (cur = 0 ∨ cur ∈ vis) := by
                push_neg
                exact ⟨h0, hvis cur (by simp)⟩
              have hndc := List.nodup_cons.mp hnd
              have hb0 : b ≠ 0 := prevStepPy_ne_zero hs
              cases hg : get_by_id s cur with
              | none =>
                  have : prevStepPy s cur = none := by unfold prevStepPy; rw [hg]
                  rw [this] at hs
                  exact Option.noConfusion hs
              | some t =>
                  have hs2 : pyOptId t.previous_todo_id = some b := by
                    unfold prevStepPy at hs
                    rw [hg] at hs
                    exact hs
                  have hbmem : b ∉ cur :: vis := by
                    intro hmem
                    rcases List.mem_cons.mp hmem with hbc | hbv
                    · exact hndc.1 (hbc ▸ List.mem_cons_self b l')
                    · exact hvis b (by simp) hbv
                  have hvis' : ∀ x ∈ b :: l', x ∉ cur :: vis := by
                    intro x hx hmem
                    rcases List.mem_cons.mp hmem with hxc | hxv
                    · exact hndc.1 (hxc ▸ hx)
                    · exact hvis x (List.mem_cons_of_mem _ hx) hxv
                  have hp' : p ∈ b :: l' ∨ p ∈ cur :: vis := by
                    rcases hp with h | h
                    · rcases List.mem_cons.mp h with hpc | hpl
                      · exact Or.inr (by simp [hpc])
                      · exact Or.inl hpl
                    · exact Or.inr (List.mem_cons_of_mem _ h)
                  have hbm2 : ¬ (b = cur ∨ b ∈ vis) := by simpa using hbmem
                  have hres := ih f b (cur :: vis) e p (by simpa using hfuel) hchain'
                    hndc.2 hb0 hvis' hstep hp'
                  simpa [prevWalkAux, hcv, hg, hs2, hbm2] using hres

lemma nextWalk_detect (s : Store) :
    ∀ (l : List Nat) (fuel cur : Nat) (vis : List Nat) (e p : Nat),
      l.length < fuel →
      NextChain s cur l e →
      (cur :: l).Nodup →
      cur ≠ 0 →
      (∀ x ∈ cur :: l, x ∉ vis) →
      nextStepPy s e = some p →
      (p ∈ cur :: l ∨ p ∈ vis) →
      (nextWalkAux s fuel cur vis).fst = true := by
  intro l
  induction l with
  | nil =>
      intro fuel cur vis e p hfuel hchain hnd h0 hvis hstep hp
      cases hchain
      cases fuel with
      | zero => omega
      | succ f =>
          have hcv : ¬ (cur = 0 ∨ cur ∈ vis) := by
            push_neg
            exact ⟨h0, hvis cur (by simp)⟩
          cases hg : get_by_id s cur with
          | none =>
              have : nextStepPy s cur = none := by unfold nextStepPy; rw [hg]
              rw [this] at hstep
              exact Option.noConfusion hstep
          | some t =>
              have hstep2 : pyOptId t.next_todo_id = some p := by
                unfold nextStepPy at hstep
                rw [hg] at hstep
                exact hstep
              have hpmem : p = cur ∨ p ∈ vis := by
                rcases hp with h | h
                · simp at h; exact Or.inl h
                · exact Or.inr h
              simp [nextWalkAux, hcv, hg, hstep2, hpmem]
  | cons b l' ih =>
      intro fuel cur vis e p hfuel hchain hnd h0 hvis hstep hp
      cases hchain with
      | cons _ _ _ _ hs hchain' =>
          cases fuel with
          | zero => simp at hfuel
          | succ f =>
              have hcv : ¬ (cur = 0 ∨ cur ∈ vis) := by
                push_neg
                exact ⟨h0, hvis cur (by simp)⟩
              have hndc := List.nodup_cons.mp hnd
              have hb0 : b ≠ 0 := nextStepPy_ne_zero hs
              cases hg : get_by_id s cur with
              | none =>
                  have : nextStepPy s cur = none := by unfold nextStepPy; rw [hg]
                  rw [this] at hs
                  exact Option.noConfusion hs
              | some t =>
                  have hs2 : pyOptId t.next_todo_id = some b := by
                    unfold nextStepPy at hs
                    rw [hg] at hs
                    exact hs
                  have hbmem : b ∉ cur :: vis := by
                    intro hmem
                    rcases List.mem_cons.mp hmem with hbc | hbv
                    · exact hndc.1 (hbc ▸ List.mem_cons_self b l')
                    · exact hvis b (by simp) hbv
                  have hvis' : ∀ x ∈ b :: l', x ∉ cur :: vis := by
                    intro x hx hmem
                    rcases List.mem_cons.mp hmem with hxc | hxv
                    · exact hndc.1 (hxc ▸ hx)
                    · exact hvis x (List.mem_cons_of_mem _ hx) hxv
                  have hp' : p ∈ b :: l' ∨ p ∈ cur :: vis := by
                    rcases hp with h | h
                    · rcases List.mem_cons.mp h with hpc | hpl
                      · exact Or.inr (by simp [hpc])
                      · exact Or.inl hpl
                    · exact Or.inr (List.mem_cons_of_mem _ h)
                  have hbm2 : ¬ (b = cur ∨ b ∈ vis) := by simpa using hbmem
                  have hres := ih f b (cur :: vis) e p (by simpa using hfuel) hchain'
                    hndc.2 hb0 hvis' hstep hp'
                  simpa [nextWalkAux, hcv, hg, hs2, hbm2] using hres

/-- A node on a pure previous-link cycle makes the previous-chain walk flag a cycle. -/
lemma prevWalk_cycle_flag {s : Store} {n k : Nat} (hk : 0 < k)
    (hcyc : prevIterN s k n = some n) :
    (prevWalkAux s (walkFuel s) n []).fst = true := by
  obtain ⟨k0, hk0pos, hk0cyc, hinj⟩ := prev_min_cycle hk hcyc
  obtain ⟨l, hlen, hchain⟩ := prevIterN_toChain hk0cyc
  have hlne : l ≠ [] := by
    intro h
    rw [h] at hlen
    simp at hlen
    omega
  obtain ⟨l0, e, heq, hch0, hstep⟩ := prevChain_split_last hchain hlne
  have hl0len : l0.length = k0 - 1 := by
    have h2 := hlen
    rw [heq] at h2
    simp at h2
    omega
  have hn0 : n ≠ 0 := prevStepPy_ne_zero hstep
  have horbit : ∀ m (hm : m < (n :: l0).length),
      prevIterN s m n = some ((n :: l0).get ⟨m, hm⟩) := by
    intro m hm
    cases m with
    | zero => simp [prevIterN]
    | succ m =>
        have hm' : m < l0.length := by simpa using hm
        have h3 := prevChain_get_iter hch0 m hm'
        simpa using h3
  have hlist_len : (n :: l0).length = k0 := by
    simp [hl0len]
    omega
  have hnd : (n :: l0).Nodup := by
    rw [List.nodup_iff_injective_get]
    intro a b hab
    obtain ⟨i, hi⟩ := a
    obtain ⟨j, hj⟩ := b
    have h1 := horbit i hi
    have h2 := horbit j hj
    have heqo : prevIterN s i n = prevIterN s j n := by rw [h1, h2, hab]
    have hi' : i < k0 := by rw [hlist_len] at hi; exact hi
    have hj' : j < k0 := by rw [hlist_len] at hj; exact hj
    exact Fin.ext (hinj i j hi' hj' heqo)
  have hfetch := prevChain_mem_fetch hch0 hstep
  have hsubids : ∀ x ∈ n :: l0, x ∈ s.map TodoDTO.todo_id := by
    intro x hx
    obtain ⟨t, ht⟩ := hfetch x hx
    exact get_by_id_mem_ids ht
  have hlenle := length_le_of_nodup_subset hnd hsubids
  rw [hlist_len, List.length_map] at hlenle
  have hfuel : l0.length < walkFuel s := by
    unfold walkFuel
    omega
  exact prevWalk_detect s l0 (walkFuel s) n [] e n hfuel hch0 hnd hn0
    (by simp) hstep (Or.inl (List.mem_cons_self n l0))

lemma nextWalk_cycle_flag {s : Store} {n k : Nat} (hk : 0 < k)
    (hcyc : nextIterN s k n = some n) :
    (nextWalkAux s (walkFuel s) n []).fst = true := by
  obtain ⟨k0, hk0pos, hk0cyc, hinj⟩ := next_min_cycle hk hcyc
  obtain ⟨l, hlen, hchain⟩ := nextIterN_toChain hk0cyc
  have hlne : l ≠ [] := by
    intro h
    rw [h] at hlen
    simp at hlen
    omega
  obtain ⟨l0, e, heq, hch0, hstep⟩ := nextChain_split_last hchain hlne
  have hl0len : l0.length = k0 - 1 := by
    have h2 := hlen
    rw [heq] at h2
    simp at h2
    omega
  have hn0 : n ≠ 0 := nextStepPy_ne_zero hstep
  have horbit : ∀ m (hm : m < (n :: l0).length),
      nextIterN s m n = some ((n :: l0).get ⟨m, hm⟩) := by
    intro m hm
    cases m with
    | zero => simp [nextIterN]
    | succ m =>
        have hm' : m < l0.length := by simpa using hm
        have h3 := nextChain_get_iter hch0 m hm'
        simpa using h3
  have hlist_len : (n :: l0).length = k0 := by
    simp [hl0len]
    omega
  have hnd : (n :: l0).Nodup := by
    rw [List.nodup_iff_injective_get]
    intro a b hab
    obtain ⟨i, hi⟩ := a
    obtain ⟨j, hj⟩ := b
    have h1 := horbit i hi
    have h2 := horbit j hj
    have heqo : nextIterN s i n = nextIterN s j n := by rw [h1, h2, hab]
    have hi' : i < k0 := by rw [hlist_len] at hi; exact hi
    have hj' : j < k0 := by rw [hlist_len] at hj; exact hj
    exact Fin.ext (hinj i j hi' hj' heqo)
  have hfetch := nextChain_mem_fetch hch0 hstep
  have hsubids : ∀ x ∈ n :: l0, x ∈ s.map TodoDTO.todo_id := by
    intro x hx
    obtain ⟨t, ht⟩ := hfetch x hx
    exact get_by_id_mem_ids ht
  have hlenle := length_le_of_nodup_subset hnd hsubids
  rw [hlist_len, List.length_map] at hlenle
  have hfuel : l0.length < walkFuel s := by
    unfold walkFuel
    omega
  exact nextWalk_detect s l0 (walkFuel s) n [] e n hfuel hch0 hnd hn0
    (by simp) hstep (Or.inl (List.mem_cons_self n l0))

/-- C6 counterexample store: todo 1 and todo 2 form a MIXED cycle — 1 reaches 2 through
its next link and 2 reaches 1 back through its previous link. -/
def storeC6 : Store := [mkTodoL 1 7 none (some 2), mkTodoL 2 7 (some 1) none]

/-- C6 (counterexample): the stored graph contains a link cycle through todo 1, yet
`validate_dependency(1)` terminates with `has_circular_dependency = false` — the two
walks each follow only one link direction, so a cycle that alternates directions is
never flagged. -/
theorem C6_counterexample :
    Relation.TransGen (EdgeR storeC6) 1 1 ∧
    validate_dependency storeC6 ⟨1, 7⟩ =
      .ok { todo_id := 1, is_valid := true, has_circular_dependency := false,
            chain_length := 2, message := "Dependency chain is valid" } := by
  constructor
  · have e12 : EdgeR storeC6 1 2 :=
      ⟨mkTodoL 1 7 none (some 2), by decide, Or.inr (by decide)⟩
    have e21 : EdgeR storeC6 2 1 :=
      ⟨mkTodoL 2 7 (some 1) none, by decide, Or.inl (by decide)⟩
    exact Relation.TransGen.head e12 (Relation.TransGen.single e21)
  · decide

/-- C6 (amended): the walks always terminate (they are bounded by the visited set
inside the finite id universe, here by a fuel argument that dominates the iteration
count); a todo lying on a cycle made of previous links alone, or of next links alone,
is reported with `has_circular_dependency = true`; a cycle mixing the two link
directions can evade detection (see the counterexample). -/
theorem C6_pure_cycle_detected (s : Store) (n u : Nat) (T : TodoDTO)
    (hT : get_by_id s n = some T) (hu : T.user_id = u) (k : Nat) (hk : 0 < k)
    (hcyc : prevIterN s k n = some n ∨ nextIterN s k n = some n) :
    validate_dependency s ⟨n, u⟩ =
      .ok { todo_id := n, is_valid := false, has_circular_dependency := true,
            chain_length := 0, message := "Circular dependency detected" } := by
  have hdet : ((prevWalkAux s (walkFuel s) n []).fst ||
      (nextWalkAux s (walkFuel s) n []).fst) = true := by
    rcases hcyc with h | h
    · rw [prevWalk_cycle_flag hk h]
      rfl
    · rw [nextWalk_cycle_flag hk h]
      simp
  simp [validate_dependency, hT, hu, hdet]

/-- Witness for C6: a two-node pure previous-link cycle (1.prev = 2, 2.prev = 1). -/
theorem C6_witness :
    validate_dependency [mkTodoL 1 7 (some 2) none, mkTodoL 2 7 (some 1) none] ⟨1, 7⟩ =
      .ok { todo_id := 1, is_valid := false, has_circular_dependency := true,
            chain_length := 0, message := "Circular dependency detected" } :=
  C6_pure_cycle_detected [mkTodoL 1 7 (some 2) none, mkTodoL 2 7 (some 1) none] 1 7
    (mkTodoL 1 7 (some 2) none) (by decide) (by decide) 2 (by decide)
    (Or.inl (by decide))

/-! ### Claim C3 -/

/-- A three-todo link-free store with the given ids and one owner. -/
def c3Store (a b c u : Nat) : Store := [mkTodo a u, mkTodo b u, mkTodo c u]

/-- C3 (counterexample): after `set_dependency(1, next, 2)` and `set_dependency(2,
next, 3)` (the claim's A→B→C via next links), `get_dependency_chain(2, both)` returns
[2, 3] with total 2 — not [1, 2, 3] with total 3: no reciprocal previous link was
written on todo 2, so the previous-direction walk finds nothing. -/
theorem C3_counterexample :
    (set_dependency (c3Store 1 2 3 7) 5 ⟨1, "next", 2, 7⟩).fst = .ok ⟨1, "next", 2, true⟩ ∧
    (set_dependency (set_dependency (c3Store 1 2 3 7) 5 ⟨1, "next", 2, 7⟩).snd 6
        ⟨2, "next", 3, 7⟩).fst = .ok ⟨2, "next", 3, true⟩ ∧
    ∃ resp, get_dependency_chain
        (set_dependency (set_dependency (c3Store 1 2 3 7) 5 ⟨1, "next", 2, 7⟩).snd 6
          ⟨2, "next", 3, 7⟩).snd ⟨2, 7, "both"⟩ = .ok resp ∧
      resp.chain.map DependencyNode.todo_id = [2, 3] ∧
      resp.chain.map DependencyNode.todo_id ≠ [1, 2, 3] ∧
      resp.total_todos = 2 ∧ resp.total_todos ≠ 3 := by
  refine ⟨by decide, by decide,
    ⟨{ todo_id := 2,
       chain := [⟨2, "t", "ToDo", none, some 3⟩, ⟨3, "t", "ToDo", none, none⟩],
       total_todos := 2 }, by decide, by decide, by decide, by decide, by decide⟩⟩

lemma get_c3Store_a {a b c u : Nat} :
    get_by_id (c3Store a b c u) a = some (mkTodo a u) := by
  simp [c3Store, get_by_id, mkTodo]

lemma get_c3Store_b {a b c u : Nat} (hab : a ≠ b) :
    get_by_id (c3Store a b c u) b = some (mkTodo b u) := by
  simp [c3Store, get_by_id, mkTodo, hab]

lemma get_c3Store_c {a b c u : Nat} (hac : a ≠ c) (hbc : b ≠ c) :
    get_by_id (c3Store a b c u) c = some (mkTodo c u) := by
  simp [c3Store, get_by_id, mkTodo, hac, hbc]

/-- A candidate with no (truthy) links can never reach the source: the checker
explores the single row and answers `false`. -/
lemma checkCircAux_leaf {s : Store} {tid dep : Nat} {t : TodoDTO} {vis : List Nat}
    {fuel : Nat} (hg : get_by_id s dep = some t)
    (hp : pyOptId t.previous_todo_id = none) (hn : pyOptId t.next_todo_id = none)
    (hne : tid ≠ dep) (hv : dep ∉ vis) :
    checkCircAux s tid (fuel + 1) dep vis = (false, dep :: vis) := by
  simp [checkCircAux, hv, hne, hg, hp, hn]

lemma wouldCreateCycle_leaf {s : Store} {tid dep : Nat} {t : TodoDTO}
    (hg : get_by_id s dep = some t)
    (hp : pyOptId t.previous_todo_id = none) (hn : pyOptId t.next_todo_id = none)
    (hne : tid ≠ dep) :
    wouldCreateCycle s tid dep = false := by
  unfold wouldCreateCycle
  rw [checkFuel_succ, checkCircAux_leaf hg hp hn hne (by simp)]

lemma chainPrevAux_none (s : Store) (fuel : Nat) (vis : List Nat)
    (ch : List DependencyNode) : chainPrevAux s fuel none vis ch = (vis, ch) := by
  cases fuel <;> rfl

lemma chainNextAux_none (s : Store) (fuel : Nat) (vis : List Nat)
    (ch : List DependencyNode) : chainNextAux s fuel none vis ch = (vis, ch) := by
  cases fuel <;> rfl

lemma chainNextAux_step {s : Store} {cur : Nat} {t : TodoDTO} {fuel : Nat}
    {vis : List Nat} {ch : List DependencyNode}
    (h0 : cur ≠ 0) (hv : cur ∉ vis) (hg : get_by_id s cur = some t) :
    chainNextAux s (fuel + 1) (some cur) vis ch =
      chainNextAux s fuel t.next_todo_id (cur :: vis) (ch ++ [mkNode t]) := by
  have hc : ¬ (cur = 0 ∨ cur ∈ vis) := by
    push_neg
    exact ⟨h0, hv⟩
  simp [chainNextAux, hc, hg]

/-- C3 (amended): in a state where A.next = B and B.next = C were set via
`set_dependency` (both calls succeed), `get_dependency_chain(B, owner, both)` returns
the ordered sequence [B, C] with total count 2 — not [A, B, C]: `set_dependency`
writes no reciprocal previous link on B, so the previous-direction walk from B stops
immediately.  (Ids are arbitrary distinct non-zero-successor ids; C ≠ 0 because a
stored 0 link is falsy in Python.) -/
theorem C3_chain_both_returns_BC (a b c u n1 n2 : Nat)
    (hab : a ≠ b) (hac : a ≠ c) (hbc : b ≠ c) (hc0 : c ≠ 0) :
    (set_dependency (c3Store a b c u) n1 ⟨a, "next", b, u⟩).fst =
      .ok ⟨a, "next", b, true⟩ ∧
    (set_dependency (set_dependency (c3Store a b c u) n1 ⟨a, "next", b, u⟩).snd n2
        ⟨b, "next", c, u⟩).fst = .ok ⟨b, "next", c, true⟩ ∧
    ∃ resp, get_dependency_chain
        (set_dependency (set_dependency (c3Store a b c u) n1 ⟨a, "next", b, u⟩).snd n2
          ⟨b, "next", c, u⟩).snd ⟨b, u, "both"⟩ = .ok resp ∧
      resp.chain.map DependencyNode.todo_id = [b, c] ∧
      resp.total_todos = 2 := by
  have hga : get_by_id (c3Store a b c u) a = some (mkTodo a u) := get_c3Store_a
  have hgb : get_by_id (c3Store a b c u) b = some (mkTodo b u) := get_c3Store_b hab
  have hgc : get_by_id (c3Store a b c u) c = some (mkTodo c u) := get_c3Store_c hac hbc
  have hcyc1 : wouldCreateCycle (c3Store a b c u) a b = false :=
    wouldCreateCycle_leaf hgb rfl rfl hab
  have hrun1 := set_dependency_run (n := n1) (q := ⟨a, "next", b, u⟩)
    hga rfl hgb rfl (Or.inr rfl) hcyc1
  have hs1 : (set_dependency (c3Store a b c u) n1 ⟨a, "next", b, u⟩).snd =
      storeAfterUpdate (c3Store a b c u) a
        (usecaseUpdateFields n1 (setDepUpdateRequest ⟨a, "next", b, u⟩)) := by
    rw [hrun1]
  have hgb1 : get_by_id (storeAfterUpdate (c3Store a b c u) a
      (usecaseUpdateFields n1 (setDepUpdateRequest ⟨a, "next", b, u⟩))) b =
      some (mkTodo b u) := by
    rw [get_by_id_storeAfterUpdate_other (Ne.symm hab)]
    exact hgb
  have hgc1 : get_by_id (storeAfterUpdate (c3Store a b c u) a
      (usecaseUpdateFields n1 (setDepUpdateRequest ⟨a, "next", b, u⟩))) c =
      some (mkTodo c u) := by
    rw [get_by_id_storeAfterUpdate_other (Ne.symm hac)]
    exact hgc
  have hcyc2 : wouldCreateCycle (storeAfterUpdate (c3Store a b c u) a
      (usecaseUpdateFields n1 (setDepUpdateRequest ⟨a, "next", b, u⟩))) b c = false :=
    wouldCreateCycle_leaf hgc1 rfl rfl hbc
  have hrun2 := set_dependency_run (n := n2) (q := ⟨b, "next", c, u⟩)
    hgb1 rfl hgc1 rfl (Or.inr rfl) hcyc2
  refine ⟨by rw [hrun1], ?_, ?_⟩
  · rw [hs1, hrun2]
  · -- the store after both writes
    rw [hs1, hrun2]
    simp only []
    -- row B after the second write
    have hgb2 := get_by_id_storeAfterUpdate_self
      (u := usecaseUpdateFields n2 (setDepUpdateRequest ⟨b, "next", c, u⟩)) hgb1
    have hgc2 : get_by_id (storeAfterUpdate (storeAfterUpdate (c3Store a b c u) a
        (usecaseUpdateFields n1 (setDepUpdateRequest ⟨a, "next", b, u⟩))) b
        (usecaseUpdateFields n2 (setDepUpdateRequest ⟨b, "next", c, u⟩))) c =
        some (mkTodo c u) := by
      rw [get_by_id_storeAfterUpdate_other (Ne.symm hbc)]
      exact hgc1
    have hB : applyUpdate (mkTodo b u)
        (usecaseUpdateFields n2 (setDepUpdateRequest ⟨b, "next", c, u⟩)) =
        { todo_id := b, title := "t", description := "", user_id := u,
          next_todo_id := some c,
          updated_at := if n2 = 0 then 0 else n2 } := by
      simp [applyUpdate, usecaseUpdateFields, setDepUpdateRequest, mkTodo,
        updVal, updOpt, updTruthyNat]
    rw [hB] at hgb2
    refine ⟨{ todo_id := b,
              chain := [⟨b, "t", "ToDo", none, some c⟩, ⟨c, "t", "ToDo", none, none⟩],
              total_todos := 2 }, ?_, by simp, rfl⟩
    have hcnotb : (c : Nat) ∉ ([b] : List Nat) := by simp [Ne.symm hbc]
    simp [get_dependency_chain, hgb2, mkNode, walkFuel, chainPrevAux_none,
      chainNextAux_step hc0 hcnotb hgc2, chainNextAux_none, mkTodo]

/-- Witness for C3 at ids 1, 2, 3 and owner 7. -/
theorem C3_witness :
    (set_dependency (c3Store 1 2 3 7) 5 ⟨1, "next", 2, 7⟩).fst = .ok ⟨1, "next", 2, true⟩ ∧
    (set_dependency (set_dependency (c3Store 1 2 3 7) 5 ⟨1, "next", 2, 7⟩).snd 6
        ⟨2, "next", 3, 7⟩).fst = .ok ⟨2, "next", 3, true⟩ ∧
    ∃ resp, get_dependency_chain
        (set_dependency (set_dependency (c3Store 1 2 3 7) 5 ⟨1, "next", 2, 7⟩).snd 6
          ⟨2, "next", 3, 7⟩).snd ⟨2, 7, "both"⟩ = .ok resp ∧
      resp.chain.map DependencyNode.todo_id = [2, 3] ∧
      resp.total_todos = 2 :=
  C3_chain_both_returns_BC 1 2 3 7 5 6 (by decide) (by decide) (by decide) (by decide)

end MyTodoList
